import Mathlib

/-!
# Verification of the `estimate_moving_price` core

A shallow embedding, in Lean 4, of the item-resolution engine and pricing
optimizer of the `estimate_moving_price` repository, together with theorems
settling the behavioural claims about it.

Modelling conventions:

* Python `float` arithmetic is modelled by exact rational arithmetic (`ℚ`).
  All quantities the claims speak about (box counts, weights, prices, hours)
  are produced by ring operations and floor/ceil, which agree with the float
  computation on the magnitudes involved; IEEE rounding is not modelled.
* Python `int` is modelled by `ℤ`, `str` by `String` restricted to the ASCII
  range (the normalizer lower-cases and strips everything outside
  `[a-z0-9 ]` anyway; `unicodedata`'s NFKD fold and combining-mark removal
  are the identity on ASCII input and are modelled as such).
* Python `dict` (insertion-ordered, unique keys) is modelled by an
  association list updated in place (`dictSet`); `collections.Counter`
  inputs are modelled as association lists in iteration order.
* Fuzzy-match scores have the exact form `q + √u` with `q u : ℚ`, `u ≥ 0`
  (the cosine contributes the square root of a rational).  They are
  represented by the pair `⟨q, u⟩` (`Score` below) and compared exactly by
  sign analysis and squaring, which is the real-number order on such values.
* Raising an exception is modelled by `Except.error`.
-/

/- Batteries marks the `Rat` field operations `@[irreducible]`, which
blocks `decide`-style evaluation of the embedded functions; restore the
default reducibility for this file. -/
attribute [local semireducible] Rat.add Rat.mul Rat.inv Rat.sub Rat.ofScientific

/-! ## Generic helpers -/

/-- Replace the value of the first occurrence of key `k` in an association
list, else append the binding: the update semantics of a Python `dict`
(existing keys keep their position, new keys go to the end). -/
def dictSet {κ α : Type} [DecidableEq κ] : List (κ × α) → κ → α → List (κ × α)
  | [], k, v => [(k, v)]
  | (k', v') :: rest, k, v =>
      if k' = k then (k', v) :: rest else (k', v') :: dictSet rest k v

/-- First-occurrence lookup in an association list (`dict.get`). -/
def dictGet {κ α : Type} [DecidableEq κ] : List (κ × α) → κ → Option α
  | [], _ => none
  | (k', v') :: rest, k => if k' = k then some v' else dictGet rest k

/-- `range(lo, hi)` over integers, as in a Python `for` loop. -/
def pyRange (lo hi : ℤ) : List ℤ :=
  (List.range (hi - lo).toNat).map (fun k => lo + Int.ofNat k)


/-! ### Kernel-reducible string primitives

The corresponding `String` methods of the Lean core library are
implemented with position arithmetic that the kernel cannot reduce, so the
(ASCII) operations the source needs are defined over `List Char`. -/

/-- ASCII lower-casing (`str.lower()`; the sources are ASCII). -/
def pyLowerChar (c : Char) : Char :=
  if 'A' ≤ c ∧ c ≤ 'Z' then Char.ofNat (c.toNat + 32) else c

def pyLower (s : String) : String := String.mk (s.toList.map pyLowerChar)

/-- ASCII upper-casing (`str.upper()`). -/
def pyUpperChar (c : Char) : Char :=
  if 'a' ≤ c ∧ c ≤ 'z' then Char.ofNat (c.toNat - 32) else c

def pyUpper (s : String) : String := String.mk (s.toList.map pyUpperChar)

/-- The ASCII whitespace `str.strip()` removes. -/
def isPyWs (c : Char) : Bool :=
  c = ' ' ∨ c = '\t' ∨ c = '\n' ∨ c = '\r' ∨ c = '\x0b' ∨ c = '\x0c'

/-- `str.strip()`. -/
def pyStrip (s : String) : String :=
  String.mk (((s.toList.dropWhile isPyWs).reverse.dropWhile isPyWs).reverse)

/-- `str.split(sep)` for a single-character separator (keeps empty chunks,
like Python). -/
def splitOnChar (sep : Char) (cs : List Char) : List (List Char) :=
  cs.foldr
    (fun c acc =>
      match acc with
      | t :: rest => if c = sep then [] :: t :: rest else (c :: t) :: rest
      | [] => [[c]])
    [[]]

def pySplitOnChar (sep : Char) (s : String) : List String :=
  (splitOnChar sep s.toList).map String.mk

def startsWithList : List Char → List Char → Bool
  | [], _ => true
  | _ :: _, [] => false
  | p :: ps, c :: cs => p = c && startsWithList ps cs

/-- Python `pat in s` (substring containment). -/
def hasSubstr (pat : List Char) : List Char → Bool
  | [] => startsWithList pat []
  | c :: cs => startsWithList pat (c :: cs) || hasSubstr pat cs

/-- `str.endswith(suffix)`. -/
def pyEndsWith (s suffix : String) : Bool :=
  startsWithList suffix.toList.reverse s.toList.reverse

/-- Code-point lexicographic `<` on strings (Python string comparison). -/
def charListLt : List Char → List Char → Bool
  | [], [] => false
  | [], _ :: _ => true
  | _ :: _, [] => false
  | a :: as, b :: bs => if a < b then true else if b < a then false else charListLt as bs

/-! ## Model of Python `float(...)` string conversion

`_parse_box_policy` and `_is_numeric` call `float(chunk)`.  We model the
decimal forms `[ws][sign](digits[.digits] | digits. | .digits)[(e|E)[sign]digits][ws]`
with exact rational value.  The exotic accepted spellings (`inf`, `nan`,
digit-group underscores) are not modelled and parse as invalid; no claim
involves them (a `nan` ratio would crash `math.floor` downstream anyway). -/

def digitsToNat (ds : List Char) : ℕ :=
  ds.foldl (fun acc c => acc * 10 + (c.toNat - 48)) 0

/-- Parse an unsigned decimal mantissa `digits[.digits] | digits. | .digits`,
returning its value and the remaining characters. -/
def parseMantissa (cs : List Char) : Option (ℚ × List Char) :=
  let intPart := cs.takeWhile Char.isDigit
  let rest := cs.dropWhile Char.isDigit
  match rest with
  | '.' :: rest' =>
      let fracPart := rest'.takeWhile Char.isDigit
      let rest'' := rest'.dropWhile Char.isDigit
      if intPart.isEmpty ∧ fracPart.isEmpty then none
      else some ((digitsToNat intPart : ℚ)
          + (digitsToNat fracPart : ℚ) / (10 : ℚ) ^ fracPart.length, rest'')
  | _ => if intPart.isEmpty then none else some ((digitsToNat intPart : ℚ), rest)

/-- Parse an optional exponent `(e|E)[sign]digits`. -/
def parseExponent (cs : List Char) : Option (ℤ × List Char) :=
  match cs with
  | 'e' :: rest | 'E' :: rest =>
      let (sign, rest') : ℤ × List Char :=
        match rest with
        | '-' :: r => (-1, r)
        | '+' :: r => (1, r)
        | r => (1, r)
      let ds := rest'.takeWhile Char.isDigit
      if ds.isEmpty then none
      else some (sign * (digitsToNat ds : ℤ), rest'.dropWhile Char.isDigit)
  | _ => some (0, cs)

/-- Model of Python `float(s)` for finite decimal literals (exact value). -/
def pyFloat? (s : String) : Option ℚ :=
  let cs := (pyStrip s).toList
  let (sign, cs') : ℚ × List Char :=
    match cs with
    | '-' :: r => (-1, r)
    | '+' :: r => (1, r)
    | r => (1, r)
  match parseMantissa cs' with
  | none => none
  | some (m, rest) =>
      match parseExponent rest with
      | none => none
      | some (e, rest') =>
          if rest'.isEmpty then some (sign * m * (10 : ℚ) ^ e) else none

/-! ## `app/text_utils.py` -/

/-- `_is_numeric`: `token.isdigit()` or `float(token)` succeeds. -/
def isNumericToken (token : String) : Bool :=
  (!token.isEmpty && token.toList.all Char.isDigit) || (pyFloat? token).isSome

/-- `singularize` from `app/text_utils.py`: suffix rules in priority order,
numeric tokens pass through. -/
def singularize (token : String) : String :=
  if token.isEmpty || isNumericToken token then token
  else if pyEndsWith token "ies" ∧ token.length > 3 then token.dropRight 3 ++ "y"
  else if pyEndsWith token "ves" ∧ token.length > 3 then token.dropRight 3 ++ "f"
  else if pyEndsWith token "ses" ∧ token.length > 3 then token.dropRight 2
  else if pyEndsWith token "xes" ∧ token.length > 3 then token.dropRight 2
  else if pyEndsWith token "s" ∧ token.length > 3 then token.dropRight 1
  else token

/-- The `_PAIR_REORDER` table of `app/text_utils.py`. -/
def PAIR_REORDER : List (List String × List String) :=
  [ (["small", "box"], ["box", "1.5"])
  , (["medium", "box"], ["box", "3.0"])
  , (["large", "box"], ["box", "4.5"])
  , (["extra", "large", "box"], ["box", "6.0"])
  , (["xl", "box"], ["box", "6.0"]) ]

def pairReorderGet (key : List String) : Option (List String) :=
  (PAIR_REORDER.find? (fun p => p.1 = key)).map (fun p => p.2)

/-- A character admitted by the `[^a-z0-9 ]` filter of `normalize_label`. -/
def isAllowedChar (c : Char) : Bool :=
  decide (('a' ≤ c ∧ c ≤ 'z') ∨ ('0' ≤ c ∧ c ≤ '9') ∨ c = ' ')

/-- Python `s.split()`: split on whitespace runs, dropping empty tokens.
At its use sites the string contains only `[a-z0-9 .]`, so splitting on the
space character is exact. -/
def pySplit (s : String) : List String :=
  (pySplitOnChar ' ' s).filter (fun t => ¬ t.isEmpty)

/-- `normalize_label` from `app/text_utils.py`.  `unicodedata` NFKD folding
is the identity on the ASCII strings considered.  The regex
`[^a-z0-9 ]+ → " "` is modelled by a per-character replacement, which
produces the same token list after the whitespace split. -/
def normalize_label (raw : String) : String :=
  let working := pyStrip (pyLower raw)
  let working := working.toList.map (fun c => if c = '_' then ' ' else c)
  let working := working.map (fun c => if c = '-' then ' ' else c)
  let working := String.mk (working.map (fun c => if isAllowedChar c then c else ' '))
  let tokens := pySplit working
  if tokens.isEmpty then ""
  else
    let tokens := tokens.map singularize
    let tokens :=
      if tokens.length = 2 ∨ tokens.length = 3 then
        match pairReorderGet tokens with
        | some replacement => replacement
        | none =>
            if tokens.getLast? = some "box" ∧ tokens.head? ≠ some "box" then
              "box" :: tokens.dropLast
            else tokens
      else tokens
    " ".intercalate tokens

/-- `tokenize` from `app/text_utils.py` (`normalized.split()`). -/
def tokenize (normalized : String) : List String :=
  pySplit normalized

/-- `generate_tokens`: unigrams plus adjacent bigrams. -/
def generate_tokens (normalized : String) : List String :=
  let tokens := pySplit normalized
  tokens ++ (List.range (tokens.length - 1)).map
    (fun idx => " ".intercalate (tokens.drop idx |>.take 2))

/-- The list of 3-character windows of the space-padded string
(`trigram_vector` before counting). -/
def trigramWindows (normalized : String) : List String :=
  let padded := if normalized.isEmpty then "" else " " ++ normalized ++ " "
  if padded.isEmpty then []
  else if padded.length < 3 then [padded]
  else (List.range (padded.length - 2)).map
    (fun idx => String.mk (padded.toList.drop idx |>.take 3))

/-- Count occurrences, first-occurrence key order: `collections.Counter`. -/
def countList (l : List String) : List (String × ℕ) :=
  l.foldl (fun acc k =>
    match dictGet acc k with
    | some n => dictSet acc k (n + 1)
    | none => dictSet acc k 1) []

/-- `trigram_vector` from `app/text_utils.py`, as a frequency table. -/
def trigram_vector (normalized : String) : List (String × ℕ) :=
  countList (trigramWindows normalized)

def counterVal (v : List (String × ℕ)) (k : String) : ℕ :=
  (dictGet v k).getD 0

/-- `sum(a[k]*b[k] for k in keys(a) ∩ keys(b))`: the cosine numerator. -/
def counterDot (a b : List (String × ℕ)) : ℚ :=
  (a.map (fun p => if (dictGet b p.1).isSome then (p.2 * counterVal b p.1 : ℚ) else 0)).sum

/-- `sum(value * value for value in vec.values())`: squared Euclidean norm. -/
def counterNormSq (v : List (String × ℕ)) : ℚ :=
  (v.map (fun p => (p.2 * p.2 : ℚ))).sum

/-- `cosine_similarity` from `app/text_utils.py` squared: the function
returns `dot / (‖a‖‖b‖)`, an irrational value in general; we carry its
square `dot² / (‖a‖²‖b‖²)`, with the same guard cascade (empty vector, no
key intersection, zero dot, zero norm → 0). -/
def cosineSq (a b : List (String × ℕ)) : ℚ :=
  if a.isEmpty ∨ b.isEmpty then 0
  else if a.all (fun p => (dictGet b p.1).isNone) then 0
  else if counterDot a b = 0 then 0
  else if counterNormSq a = 0 ∨ counterNormSq b = 0 then 0
  else (counterDot a b) ^ 2 / (counterNormSq a * counterNormSq b)

/-! ## Exact fuzzy-match scores

`_candidate_score` averages two rational similarity ratios with a trigram
cosine `dot/√(‖a‖²‖b‖²)`, so every score has the exact form `q + √u` with
`q u : ℚ`, `0 ≤ u`.  `Score` carries that pair; the order on scores is
decided exactly by sign analysis and squaring. -/

structure Score where
  q : ℚ
  u : ℚ
deriving DecidableEq, Repr

def Score.ofQ (x : ℚ) : Score := ⟨x, 0⟩

/-- Exact decision of `s.q + √s.u ≤ t.q + √t.u` (for `0 ≤ s.u`, `0 ≤ t.u`):
with `d = t.q - s.q` the inequality reads `√s.u ≤ d + √t.u`; it is false when
the right side is negative (`d < 0` and `t.u < d²`), and otherwise squares to
`e ≤ 2d√t.u` with `e = s.u - t.u - d²`, which is resolved by the sign of `d`
and `e` and one more squaring. -/
def Score.leB (s t : Score) : Bool :=
  let d := t.q - s.q
  let e := s.u - t.u - d ^ 2
  if d < 0 ∧ t.u < d ^ 2 then false
  else if 0 ≤ d then (if e ≤ 0 then true else decide (e ^ 2 ≤ 4 * d ^ 2 * t.u))
  else if 0 < e then false
  else decide (4 * d ^ 2 * t.u ≤ e ^ 2)

def Score.ltB (s t : Score) : Bool := ! Score.leB t s

def Score.eqB (s t : Score) : Bool := Score.leB s t && Score.leB t s

/-- Exact decision of `(m : ℚ) ≤ s.q + √s.u`. -/
def Score.intLe (m : ℤ) (s : Score) : Bool :=
  decide ((m : ℚ) - s.q ≤ 0) || decide (((m : ℚ) - s.q) ^ 2 ≤ s.u)

/-- `⌊s.q + √s.u⌋`, computed by counting the integers `⌊s.q⌋ + k` (for
`1 ≤ k ≤ B + 1`, `B` an upper bound on `√s.u`) that are below the value. -/
def Score.floorB (s : Score) : ℤ :=
  let f := ⌊s.q⌋
  let B := Nat.sqrt (⌈s.u⌉.toNat) + 1
  f + (((List.range (B + 1)).filter (fun k : ℕ => Score.intLe (f + (k : ℤ) + 1) s)).length : ℤ)

/-- Round-half-to-even of a score to an integer (the semantics of Python's
`round`, applied to the exact value). -/
def Score.roundHalfEvenInt (s : Score) : ℤ :=
  let n := s.floorB
  let half : Score := ⟨(n : ℚ) + 1 / 2, 0⟩
  if s.ltB half then n
  else if half.ltB s then n + 1
  else if n % 2 = 0 then n else n + 1

/-- `round(x, 4)` on the exact value of a score: `10⁴(q + √u) = 10⁴q + √(10⁸u)`. -/
def Score.round4 (s : Score) : ℚ :=
  (Score.roundHalfEvenInt ⟨s.q * 10 ^ 4, s.u * 10 ^ 8⟩ : ℚ) / 10 ^ 4

/-- `round(x, n)` for an exactly rational value (round-half-to-even). -/
def pyRoundQ (ndigits : ℕ) (x : ℚ) : ℚ :=
  let s := x * 10 ^ ndigits
  let f := ⌊s⌋
  let r := s - (f : ℚ)
  let n := if r < 1 / 2 then f else if 1 / 2 < r then f + 1 else if f % 2 = 0 then f else f + 1
  (n : ℚ) / 10 ^ ndigits

/-! ## Model of `difflib.SequenceMatcher(None, a, b).ratio()`

The source's `_token_set_ratio` and `_partial_ratio` call the standard
library's `SequenceMatcher` with `isjunk=None`, so the junk set is empty and
only the `autojunk` popularity heuristic (strings of length ≥ 200) affects
`b2j`.  `ratio()` is `2M/T` where `M` sums the sizes of the recursively
found longest matching blocks and `T` is the total length. -/

/-- `b2j`: for each character of `b` its ascending list of positions, minus
the "popular" characters when `len(b) ≥ 200` (autojunk). -/
def buildB2J (b : List Char) : List (Char × List ℕ) :=
  let base := b.enum.foldl
    (fun acc p =>
      match dictGet acc p.2 with
      | some l => dictSet acc p.2 (l ++ [p.1])
      | none => dictSet acc p.2 [p.1]) []
  let n := b.length
  if n ≥ 200 then base.filter (fun e => e.2.length ≤ n / 100 + 1) else base

/-- `a[i] == b[j]` with both indices in range. -/
def charEqAt (a b : List Char) (i j : ℕ) : Bool :=
  match a.get? i, b.get? j with
  | some x, some y => x = y
  | _, _ => false

/-- The left-extension loop of `find_longest_match` (the junk set is empty,
so the junk-skipping variants of the loop are no-ops).  Structural fuel:
`besti` decreases at every step. -/
def extendLeft (a b : List Char) (alo blo : ℕ) :
    ℕ → ℕ × ℕ × ℕ → ℕ × ℕ × ℕ
  | 0, st => st
  | fuel + 1, (bi, bj, bs) =>
      if bi > alo ∧ bj > blo ∧ charEqAt a b (bi - 1) (bj - 1) then
        extendLeft a b alo blo fuel (bi - 1, bj - 1, bs + 1)
      else (bi, bj, bs)

/-- The right-extension loop of `find_longest_match`. -/
def extendRight (a b : List Char) (ahi bhi : ℕ) :
    ℕ → ℕ × ℕ × ℕ → ℕ × ℕ × ℕ
  | 0, st => st
  | fuel + 1, (bi, bj, bs) =>
      if bi + bs < ahi ∧ bj + bs < bhi ∧ charEqAt a b (bi + bs) (bj + bs) then
        extendRight a b ahi bhi fuel (bi, bj, bs + 1)
      else (bi, bj, bs)

/-- `find_longest_match(alo, ahi, blo, bhi)`: the `j2len` dynamic program
over common-substring runs, then the extension loops. -/
def findLongestMatch (a b : List Char) (b2j : List (Char × List ℕ))
    (alo ahi blo bhi : ℕ) : ℕ × ℕ × ℕ :=
  let step := fun (st : (ℕ × ℕ × ℕ) × List (ℕ × ℕ)) (i : ℕ) =>
    let js := ((match a.get? i with
                | some c => (dictGet b2j c).getD []
                | none => []).filter (fun j => blo ≤ j ∧ j < bhi))
    js.foldl
      (fun (st2 : (ℕ × ℕ × ℕ) × List (ℕ × ℕ)) j =>
        let k := (if j = 0 then 0 else (dictGet st.2 (j - 1)).getD 0) + 1
        let best := if k > st2.1.2.2 then (i + 1 - k, j + 1 - k, k) else st2.1
        (best, dictSet st2.2 j k))
      (st.1, [])
  let init : (ℕ × ℕ × ℕ) × List (ℕ × ℕ) := ((alo, blo, 0), [])
  let res := (((List.range (ahi - alo)).map (fun t => alo + t)).foldl step init).1
  let res := extendLeft a b alo blo res.1 res
  extendRight a b ahi bhi a.length res

/-- Sum of the sizes of all matching blocks (the recursion of
`get_matching_blocks`; the final merge step does not change the sum).
Fuel: each recursive call strictly shrinks `ahi - alo`, so `a.length + 1`
suffices at the top call. -/
def matchingSum (a b : List Char) (b2j : List (Char × List ℕ)) :
    ℕ → ℕ → ℕ → ℕ → ℕ → ℕ
  | 0, _, _, _, _ => 0
  | fuel + 1, alo, ahi, blo, bhi =>
      let r := findLongestMatch a b b2j alo ahi blo bhi
      let i := r.1
      let j := r.2.1
      let k := r.2.2
      if k = 0 then 0
      else k + (if alo < i ∧ blo < j then matchingSum a b b2j fuel alo i blo j else 0)
             + (if i + k < ahi ∧ j + k < bhi then matchingSum a b b2j fuel (i + k) ahi (j + k) bhi else 0)

/-- `SequenceMatcher(None, left, right).ratio()` as an exact rational. -/
def seqMatcherRatio (left right : String) : ℚ :=
  let a := left.toList
  let b := right.toList
  let m := matchingSum a b (buildB2J b) (a.length + 1) 0 a.length 0 b.length
  let t := a.length + b.length
  if t = 0 then 1 else 2 * (m : ℚ) / (t : ℚ)

/-! ## `app/catalog.py`: items, alias records, alias registration -/

structure CatalogItem where
  id : String
  name : String
  category : String
  volume_cuft : ℚ
  weight_lbs : ℚ
  aliases : List String
deriving DecidableEq, Repr

structure AliasRecord where
  item_id : String
  alias_ : String
  normalized : String
  tokens : List String
  vector : List (String × ℕ)
  priority : ℕ
deriving DecidableEq, Repr

/-- The queryable state of a built `Catalog`: the four insertion-ordered
dictionaries the resolver reads (`items`, `alias_to_id`, `_alias_records`,
`category_medoid`). -/
structure Catalog where
  items : List (String × CatalogItem)
  alias_to_id : List (String × String)
  alias_records : List (String × AliasRecord)
  category_medoid : List (String × String)
deriving DecidableEq, Repr

def Catalog.get (c : Catalog) (item_id : String) : Option CatalogItem :=
  dictGet c.items item_id

/-- `alias_records()` returns `tuple(self._alias_records.values())`. -/
def Catalog.aliasRecordList (c : Catalog) : List AliasRecord :=
  c.alias_records.map (fun p => p.2)

def Catalog.getAliasRecord (c : Catalog) (normalized : String) : Option AliasRecord :=
  dictGet c.alias_records normalized

/-- `Catalog._register_alias`: skip empty normalizations, keep an existing
record whose priority is `<=` the incoming one, otherwise overwrite both
`_alias_records[normalized]` and `alias_to_id[normalized]`. -/
def registerAlias (c : Catalog) (aliasText : String) (item : CatalogItem) (priority : ℕ) : Catalog :=
  let normalized := normalize_label aliasText
  if normalized = "" then c
  else
    let record : AliasRecord :=
      ⟨item.id, aliasText, normalized, generate_tokens normalized, trigram_vector normalized, priority⟩
    match dictGet c.alias_records normalized with
    | some existing =>
        if existing.priority ≤ priority then c
        else { c with alias_records := dictSet c.alias_records normalized record,
                      alias_to_id := dictSet c.alias_to_id normalized item.id }
    | none =>
        { c with alias_records := dictSet c.alias_records normalized record,
                 alias_to_id := dictSet c.alias_to_id normalized item.id }

/-- A catalog with nothing registered yet (the state at the start of
`Catalog.__init__` after the dict initializers). -/
def emptyCatalog : Catalog := ⟨[], [], [], []⟩

/-- Apply a sequence of `(alias, item, priority)` registrations in order:
the shape of every call pattern `_load_items` produces. -/
def applyRegistrations (c : Catalog) (regs : List (String × CatalogItem × ℕ)) : Catalog :=
  regs.foldl (fun acc r => registerAlias acc r.1 r.2.1 r.2.2) c

/-- `Catalog._basic_alias_variants`. -/
def basicAliasVariants (name : String) : List String :=
  let normalized := normalize_label name
  if normalized = "" then []
  else
    let parts := pySplitOnChar ' ' normalized
    (if parts.length = 2 then [" ".intercalate parts.reverse] else [])
      ++ ["_".intercalate parts, "-".intercalate parts]

/-- The registrations `_load_items` performs for one catalog item, in
source order: name at priority 0, author aliases at 1, generated variants
at 2. -/
def itemRegistrations (item : CatalogItem) : List (String × CatalogItem × ℕ) :=
  (item.name, item, 0) :: (item.aliases.map (fun a => (a, item, 1))
    ++ (basicAliasVariants item.name).map (fun v => (v, item, 2)))

/-- The `Catalog._MANUAL_ALIASES` table. -/
def MANUAL_ALIASES : List (String × String) :=
  [ ("dining table", "dining_table_medium")
  , ("table dining", "dining_table_medium")
  , ("dining table medium", "dining_table_medium")
  , ("refrigerator", "refrigerator_standard")
  , ("fridge", "refrigerator_standard")
  , ("couch", "sofa_three_seat")
  , ("sofa", "sofa_three_seat")
  , ("wardrobe", "wardrobe_large")
  , ("safe", "safe_large")
  , ("bureau", "dresser_standard")
  , ("dresser", "dresser_standard") ]

/-! ## `app/resolver.py`: constants and data shapes -/

def BOX_ID_MAP : List (String × String) :=
  [ ("1.5", "carton_box_small_1_5")
  , ("3.0", "carton_box_medium_3_0")
  , ("4.5", "carton_box_large_4_5")
  , ("6.0", "carton_box_xl_6_0") ]

def BED_SIZE_ORDER : List String := ["king", "queen", "full", "twin"]

/-- `BED_SIZE_SYNONYMS` (Python sets modelled as lists; only membership and
intersection tests are performed on them). -/
def BED_SIZE_SYNONYMS : List (String × List String) :=
  [ ("king", ["king", "cal king", "california"])
  , ("queen", ["queen"])
  , ("full", ["full", "double"])
  , ("twin", ["twin", "single"]) ]

def BED_SIZE_TARGETS : List (String × List (String × String)) :=
  [ ("headboard",
      [ ("king", "bed_king_headboard"), ("queen", "bed_queen_headboard")
      , ("full", "bed_full_headboard"), ("twin", "bed_headboard") ])
  , ("frame",
      [ ("king", "bed_king_frame"), ("queen", "bed_queen_frame")
      , ("full", "bed_double_full_frame"), ("twin", "bed_twin_single_frame") ])
  , ("box_spring",
      [ ("king", "bed_king_box_spring"), ("queen", "bed_queen_box_spring")
      , ("full", "bed_double_full_box_spring"), ("twin", "bed_twin_single_box_spring") ]) ]

def DRESSER_RULES : List (String × String) :=
  [ ("tall", "dresser_tall"), ("highboy", "dresser_tall"), ("chest", "dresser_tall")
  , ("double", "dresser_double"), ("lowboy", "dresser_double"), ("wide", "dresser_double") ]

def CATEGORY_TOKEN_MAP : List (String × String) :=
  [ ("dresser", "dresser"), ("bureau", "dresser"), ("armoire", "wardrobe")
  , ("wardrobe", "wardrobe"), ("cabinet", "cabinet"), ("bench", "bench")
  , ("lamp", "lamp"), ("sofa", "sofa"), ("couch", "sofa"), ("sectional", "sofa")
  , ("table", "table"), ("chair", "chair"), ("stool", "chair"), ("piano", "piano")
  , ("rug", "rug"), ("bed", "bed"), ("mattress", "bed"), ("tv", "television")
  , ("television", "television"), ("mirror", "mirror"), ("desk", "desk")
  , ("appliance", "appliance"), ("refrigerator", "appliance"), ("fridge", "appliance")
  , ("freezer", "appliance"), ("box", "carton"), ("carton", "carton") ]

structure ResolverOptions where
  resolver_policy : String := "best_match_no_fail"
  box_allocation_policy : String := "50/35/10/5"
  confidence_floor : ℚ := 65 / 100
  assumptions_public : Bool := true
deriving DecidableEq, Repr

structure MatchResult where
  item : CatalogItem
  alias_ : String
  normalized : String
  similarity : Score
  approximate : Bool
deriving DecidableEq, Repr

structure Candidate where
  record : AliasRecord
  score : Score
  coverage : ℕ
  category : String
  weight : ℚ
deriving DecidableEq, Repr

structure ResolvedLine where
  raw : String
  quantity : ℤ
  match_ : MatchResult
  confidence : Score
  reason : String
  alternates : List (String × ℚ) := []
deriving DecidableEq, Repr

/-- One entry of the assumptions ledger (a Python dict per entry; the
constructor tags mirror the `"type"` field, `source` is the `"from"` key). -/
inductive Assumption
  | boxDistribution (total : ℤ) (policy : String) (result : List (String × ℤ))
  | bestMatch (raw : String) (chosen_id : String) (confidence : ℚ)
      (alternates : List (String × ℚ)) (resolver : String)
  | categoryBackstop (category : String) (chosen_id : String) (reason : String)
  | sizeInheritance (source : String) (applied_to : List String)
deriving DecidableEq, Repr

structure MatchSummary where
  resolved_pct : ℕ
  low_confidence_count : ℕ
  resolver_policy : String
deriving DecidableEq, Repr

structure ResolverResult where
  lines : List ResolvedLine
  assumptions : List Assumption
  match_summary : MatchSummary
deriving DecidableEq, Repr

/-! ## `_parse_box_policy` and `allocate_boxes` -/

/-- `_parse_box_policy`: slash-split, `float(chunk.strip())/100` with
invalid chunks parsing as 0, padded/truncated to exactly 4 entries. -/
def parse_box_policy (policy : String) : List ℚ :=
  let ratios := (pySplitOnChar '/' policy).map (fun chunk =>
    match pyFloat? (pyStrip chunk) with
    | some v => v / 100
    | none => 0)
  (ratios ++ List.replicate 4 0).take 4

/-- The descending order on `(index, fractional remainder)` pairs used by
`sorted(..., key=lambda item: (item[1], item[0]), reverse=True)`:
`x` precedes `y` when `(x.frac, x.idx) ≥ (y.frac, y.idx)` lexicographically.
All keys are distinct (the index is part of the key), so any sort
producing this order agrees with Python's stable sort. -/
def remOrder (x y : ℕ × ℚ) : Prop :=
  y.2 < x.2 ∨ (x.2 = y.2 ∧ y.1 ≤ x.1)

instance : DecidableRel remOrder := fun x y =>
  inferInstanceAs (Decidable (y.2 < x.2 ∨ (x.2 = y.2 ∧ y.1 ≤ x.1)))

/-- The remainder loop of `allocate_boxes`: walk the sorted index list,
adding one to each position while remainder units remain. -/
def distributeRemainder : List (ℕ × ℚ) → ℤ → List ℤ → List ℤ
  | [], _, counts => counts
  | p :: rest, rem, counts =>
      if rem ≤ 0 then counts
      else distributeRemainder rest (rem - 1) (counts.set p.1 (counts.getD p.1 0 + 1))

/-- `sizes = list(BOX_ID_MAP.keys())`. -/
def boxSizes : List String := BOX_ID_MAP.map (fun p => p.1)

/-- `targets = [total * ratio for ratio in ratios]`. -/
def boxTargets (total : ℤ) (policy : String) : List ℚ :=
  (parse_box_policy policy).map (fun r => (total : ℚ) * r)

/-- `counts = [math.floor(value) for value in targets]`. -/
def boxBaseCounts (total : ℤ) (policy : String) : List ℤ :=
  (boxTargets total policy).map (fun t => ⌊t⌋)

/-- `remainder = total - sum(counts)`. -/
def boxRemainder (total : ℤ) (policy : String) : ℤ :=
  total - (boxBaseCounts total policy).sum

/-- `targets[idx] - counts[idx]`: the fractional remainder at a size index. -/
def boxFrac (total : ℤ) (policy : String) (idx : ℕ) : ℚ :=
  (boxTargets total policy).getD idx 0 - (((boxBaseCounts total policy).getD idx 0 : ℤ) : ℚ)

/-- The `(idx, fractional remainder)` pairs fed to `sorted`. -/
def boxPairs (total : ℤ) (policy : String) : List (ℕ × ℚ) :=
  (List.range boxSizes.length).map (fun idx => (idx, boxFrac total policy idx))

def boxSortedPairs (total : ℤ) (policy : String) : List (ℕ × ℚ) :=
  List.insertionSort remOrder (boxPairs total policy)

/-- The per-size counts after the remainder loop. -/
def boxFinalCounts (total : ℤ) (policy : String) : List ℤ :=
  distributeRemainder (boxSortedPairs total policy) (boxRemainder total policy)
    (boxBaseCounts total policy)

/-- `allocate_boxes` from `app/resolver.py`. -/
def allocate_boxes (total : ℤ) (policy : String) : List (String × ℤ) :=
  if total ≤ 0 then boxSizes.map (fun s => (s, 0))
  else
    (List.range boxSizes.length).map
      (fun idx => (boxSizes.getD idx "", (boxFinalCounts total policy).getD idx 0))

/-! ## `app/resolver.py`: strategies -/

/-- `infer_category`: first token with a category keyword, default `misc`
(every table value is a non-empty, hence truthy, string). -/
def infer_category (tokens : List String) : String :=
  (tokens.findSome? (fun t => dictGet CATEGORY_TOKEN_MAP t)).getD "misc"

/-- `_token_set_ratio`: Python `set(str.split())` is modelled by `dedup`
(only the size, and the sole element in the singleton case, are used). -/
def token_set_ratio (left right : String) : ℚ :=
  let left_tokens := (pySplit left).dedup
  let right_tokens := (pySplit right).dedup
  if left_tokens.isEmpty ∨ right_tokens.isEmpty then 0
  else if left_tokens.length = 1 ∧ right_tokens.length = 1 then
    seqMatcherRatio (left_tokens.headD "") (right_tokens.headD "")
  else
    let overlap := (left_tokens.filter (fun t => t ∈ right_tokens)).length
    let total := left_tokens.length + right_tokens.length
    if total = 0 then 0 else (2 * overlap : ℚ) / (total : ℚ)

/-- `_partial_ratio` (whole-string `SequenceMatcher` ratio, 0 on empties). -/
def partRatio (left right : String) : ℚ :=
  if left = "" ∨ right = "" then 0 else seqMatcherRatio left right

/-- `_candidate_score`: the average of two rational ratios and the trigram
cosine, as an exact `Score`: `(t + p)/3 + √(cos²/9)`. -/
def candidate_score (norm : String) (record : AliasRecord) : Score :=
  ⟨(token_set_ratio norm record.normalized + partRatio norm record.normalized) / 3,
    cosineSq (trigram_vector norm) record.vector / 9⟩

/-- `_candidate_coverage`. -/
def candidate_coverage (tokens : List String) (record : AliasRecord) : ℕ :=
  (tokens.filter (fun t => t ∈ record.tokens)).length

/-- `_bed_majority`: vote tally over mattress lines, then the first size in
`BED_SIZE_ORDER` whose tally strictly exceeds the running best. -/
def bedMajority (counter : List (String × ℤ)) : Option String :=
  let votes := counter.foldl
    (fun votes p =>
      let normalized := normalize_label p.1
      if normalized = "" then votes
      else
        let tokens := tokenize normalized
        if ¬ tokens.any (fun t => t = "mattress" ∨ t = "mattres") then votes
        else BED_SIZE_SYNONYMS.foldl
          (fun v sp =>
            if tokens.any (fun t => t ∈ sp.2) then
              dictSet v sp.1 ((dictGet v sp.1).getD 0 + p.2)
            else v) votes)
    (BED_SIZE_ORDER.map (fun s => (s, (0 : ℤ))))
  (BED_SIZE_ORDER.foldl
    (fun (acc : Option String × ℤ) size =>
      let count := (dictGet votes size).getD 0
      if count > acc.2 then (some size, count) else acc) (none, 0)).1

/-- The body of `_build_family_line` after its successful `catalog.get`
(callers check existence first, so the `ValueError` branch is dead). -/
def familyBedLine (raw : String) (quantity : ℤ) (item : CatalogItem) (reason : String) : ResolvedLine :=
  { raw := raw, quantity := quantity
  , match_ := ⟨item, item.name, normalize_label item.name, Score.ofQ (9 / 10), true⟩
  , confidence := Score.ofQ (9 / 10), reason := reason }

/-- `applied.setdefault(size, set()).add(raw)`: the per-size set of raw
labels, modelled as a duplicate-free list (it is only ever read through
`sorted`). -/
def setAdd (applied : List (String × List String)) (size raw : String) : List (String × List String) :=
  match dictGet applied size with
  | some s => if raw ∈ s then applied else dictSet applied size (s ++ [raw])
  | none => dictSet applied size [raw]

/-- `_family_bed_mapping`: the three keyword groups in source order, each
guarded by target existence (falling through to the next group otherwise). -/
def familyBedMapping (raw : String) (tokens : List String) (quantity : ℤ) (catalog : Catalog)
    (size : Option String) (applied : List (String × List String)) :
    Option (List ResolvedLine × List (String × List String)) :=
  match size with
  | none => none
  | some sz =>
      let attempt := fun (group : String) (present : Bool) =>
        if present then
          match dictGet BED_SIZE_TARGETS group with
          | some target_map =>
              match dictGet target_map sz with
              | some target_id => catalog.get target_id
              | none => none
          | none => none
        else none
      match attempt "headboard" ("headboard" ∈ tokens) with
      | some item => some ([familyBedLine raw quantity item "family_bed"], setAdd applied sz raw)
      | none =>
      match attempt "frame" ("frame" ∈ tokens) with
      | some item => some ([familyBedLine raw quantity item "family_bed"], setAdd applied sz raw)
      | none =>
      match attempt "box_spring" ("box" ∈ tokens ∧ "spring" ∈ tokens) with
      | some item => some ([familyBedLine raw quantity item "family_bed"], setAdd applied sz raw)
      | none => none

/-- `_family_dresser`. -/
def familyDresser (raw : String) (tokens : List String) (quantity : ℤ) (catalog : Catalog) :
    Option ResolvedLine :=
  match tokens.findSome? (fun t =>
      match dictGet DRESSER_RULES t with
      | some mapped => catalog.get mapped
      | none => none) with
  | some item =>
      some { raw := raw, quantity := quantity
           , match_ := ⟨item, item.name, normalize_label item.name, Score.ofQ (85 / 100), true⟩
           , confidence := Score.ofQ (85 / 100), reason := "family_dresser" }
  | none =>
      if "dresser" ∈ tokens ∨ "bureau" ∈ tokens then
        match catalog.get "dresser_standard" with
        | some item =>
            some { raw := raw, quantity := quantity
                 , match_ := ⟨item, item.name, normalize_label item.name, Score.ofQ (82 / 100), true⟩
                 , confidence := Score.ofQ (82 / 100), reason := "family_dresser" }
        | none => none
      else none

/-- `_family_piano`.  NOTE: when the rule fires and the label is not a
grand piano, the source evaluates `tokens & {"upright", ...}` where
`tokens` is a *list* (`tokenize` returns `normalized.split()`), and Python
raises `TypeError: unsupported operand type(s) for &: 'list' and 'set'`.
That crash is modelled by `Except.error`. -/
def familyPiano (raw : String) (tokens : List String) (quantity : ℤ) (catalog : Catalog) :
    Except String (Option (List ResolvedLine × List Assumption)) :=
  if "piano" ∉ tokens then .ok none
  else
    let normalized := " ".intercalate tokens
    if "grand" ∈ tokens ∨ hasSubstr "baby grand".toList normalized.toList then
      let chosen_id := "piano_grand"
      let confidence : ℚ := 9 / 10
      let lines0 : List ResolvedLine :=
        match catalog.get chosen_id with
        | some item =>
            [ { raw := raw, quantity := quantity
              , match_ := ⟨item, item.name, normalize_label item.name, Score.ofQ confidence, true⟩
              , confidence := Score.ofQ confidence, reason := "family_piano" } ]
        | none => []
      let withBench : List ResolvedLine × List Assumption :=
        if "bench" ∈ tokens then
          match catalog.get "bench_piano" with
          | some bench_item =>
              let bench_raw := raw ++ " (bench)"
              (lines0 ++
               [ { raw := bench_raw, quantity := quantity
                 , match_ := ⟨bench_item, bench_item.name, normalize_label bench_item.name,
                              Score.ofQ (8 / 10), true⟩
                 , confidence := Score.ofQ (8 / 10), reason := "family_piano" } ],
               [Assumption.bestMatch bench_raw "bench_piano" (8 / 10) [] "family_piano"])
          | none => (lines0, [])
        else (lines0, [])
      if withBench.1.isEmpty then .ok none else .ok (some withBench)
    else
      .error "TypeError: unsupported operand type(s) for &: 'list' and 'set'"

/-- `_apply_boxes`: one line per allocated size whose carton item exists. -/
def applyBoxes (raw : String) (quantity : ℤ) (catalog : Catalog) (options : ResolverOptions) :
    List ResolvedLine × Assumption :=
  let allocation := allocate_boxes quantity options.box_allocation_policy
  let assumption := Assumption.boxDistribution quantity options.box_allocation_policy allocation
  let lines := allocation.foldl
    (fun acc p =>
      if p.2 ≤ 0 then acc
      else
        match dictGet BOX_ID_MAP p.1 with
        | none => acc
        | some item_id =>
            match catalog.get item_id with
            | none => acc
            | some item =>
                acc ++ [ { raw := raw ++ " (" ++ p.1 ++ ")", quantity := p.2
                         , match_ := ⟨item, item.name, normalize_label item.name,
                                      Score.ofQ (9 / 10), false⟩
                         , confidence := Score.ofQ (9 / 10), reason := "box_distribution" } ]) []
  (lines, assumption)

/-! ## `_deterministic_pick` and the fuzzy strategy -/

/-- Stable insertion sort on a boolean "may precede" relation (the
behaviour of Python's stable `list.sort`). -/
def orderedInsertB {α : Type} (le : α → α → Bool) (a : α) : List α → List α
  | [] => [a]
  | b :: l => if le a b then a :: b :: l else b :: orderedInsertB le a l

def insertionSortB {α : Type} (le : α → α → Bool) : List α → List α
  | [] => []
  | a :: l => orderedInsertB le a (insertionSortB le l)

/-- The composite sort key of `_deterministic_pick`, as a "key of `a` ≤ key
of `b`" test: `(-coverage, -score, category_rank, weight_delta, priority,
item_id)` compared lexicographically. -/
def candKeyLe (catalog : Catalog) (category_hint : String) (a b : Candidate) : Bool :=
  let rank := fun (cand : Candidate) =>
    let category := match catalog.get cand.record.item_id with
      | some item => item.category
      | none => ""
    if category_hint ≠ "" ∧ category = category_hint then (0 : ℕ) else 1
  let wdelta := fun (cand : Candidate) =>
    let category := match catalog.get cand.record.item_id with
      | some item => item.category
      | none => ""
    let median_weight : ℚ :=
      match dictGet catalog.category_medoid category with
      | some medoid_id =>
          match catalog.get medoid_id with
          | some m => m.weight_lbs
          | none => 0
      | none => 0
    |cand.weight - median_weight|
  if a.coverage ≠ b.coverage then a.coverage > b.coverage
  else if ¬ Score.eqB a.score b.score then Score.ltB b.score a.score
  else if rank a ≠ rank b then rank a < rank b
  else if wdelta a ≠ wdelta b then wdelta a < wdelta b
  else if a.record.priority ≠ b.record.priority then a.record.priority < b.record.priority
  else a.record.item_id ≤ b.record.item_id

/-- `_deterministic_pick`: stable sort by the composite key, first element.
(Called on a non-empty list; `headD` never takes its default there.) -/
def deterministicPick (candidates : List Candidate) (catalog : Catalog) (category_hint : String)
    (dflt : Candidate) : Candidate :=
  (insertionSortB (candKeyLe catalog category_hint) candidates).headD dflt

/-- `_category_backstop`.  The `ValueError` when the catalog has no medoids
is `Except.error`; a medoid id missing from `items` (impossible for a
constructed catalog) surfaces as the subscript error Python would raise. -/
def categoryBackstop (raw : String) (tokens : List String) (quantity : ℤ) (catalog : Catalog) :
    Except String (ResolvedLine × Assumption) :=
  let category := infer_category tokens
  let item_id :=
    match dictGet catalog.category_medoid category with
    | some iid => some iid
    | none => (catalog.category_medoid.head?).map (fun p => p.2)
  match item_id with
  | none => .error "Catalog is missing medoid definitions"
  | some iid =>
      match catalog.get iid with
      | none => .error ("TypeError: catalog item missing for medoid " ++ iid)
      | some item =>
          .ok ({ raw := raw, quantity := quantity
               , match_ := ⟨item, item.name, normalize_label item.name, Score.ofQ (1 / 2), true⟩
               , confidence := Score.ofQ (1 / 2), reason := "category_backstop" },
               Assumption.categoryBackstop category iid "no candidate >= floor")

/-! ## `resolve_inventory` -/

/-- The mutable state of the `resolve_inventory` loop. -/
structure ResolveState where
  lines : List ResolvedLine
  assumptions : List Assumption
  size_applied : List (String × List String)
deriving DecidableEq, Repr

/-- The fuzzy-candidate loop: score every alias record, keep those at or
above the confidence floor, fetching each kept record's item (a missing
item is the subscript `TypeError` Python would raise there). -/
def buildCandidates (catalog : Catalog) (options : ResolverOptions)
    (norm : String) (tokens : List String) : Except String (List Candidate) :=
  catalog.aliasRecordList.foldl
    (fun acc record =>
      match acc with
      | .error e => .error e
      | .ok cands =>
          let score := candidate_score norm record
          let coverage := candidate_coverage tokens record
          if Score.ltB score (Score.ofQ options.confidence_floor) then .ok cands
          else
            match catalog.get record.item_id with
            | none => .error ("TypeError: catalog item missing for record " ++ record.item_id)
            | some item =>
                .ok (cands ++ [⟨record, score, coverage, item.category, item.weight_lbs⟩]))
    (.ok [])

/-- Descending-score order for the runner-up list
(`sorted(candidates, key=lambda c: c.score, reverse=True)`, stable). -/
def scoreDescLe (a b : Candidate) : Bool :=
  Score.leB b.score a.score

/-- One iteration of the `for raw, quantity in counter.items()` loop of
`resolve_inventory`: the ordered strategy pipeline, first hit wins. -/
def resolveStep (catalog : Catalog) (options : ResolverOptions) (bed_size : Option String)
    (st : ResolveState) (entry : String × ℤ) : Except String ResolveState :=
  let raw := entry.1
  let quantity := entry.2
  if quantity ≤ 0 then .ok st
  else
    let norm := normalize_label raw
    if norm = "" then .ok st
    else
      let tokens := tokenize norm
      if norm = "box" then
        let boxes := applyBoxes raw quantity catalog options
        .ok { st with lines := st.lines ++ boxes.1, assumptions := st.assumptions ++ [boxes.2] }
      else
        match catalog.get raw with
        | some direct_item =>
            .ok { st with lines := st.lines ++
              [ { raw := raw, quantity := quantity
                , match_ := ⟨direct_item, direct_item.name, normalize_label direct_item.name,
                             Score.ofQ 1, false⟩
                , confidence := Score.ofQ 1, reason := "exact_id" } ] }
        | none =>
        match dictGet catalog.alias_to_id norm with
        | some alias_id =>
            match catalog.get alias_id with
            | none => .error ("TypeError: catalog item missing for alias " ++ alias_id)
            | some item =>
                let alias_name :=
                  match catalog.getAliasRecord norm with
                  | some record => record.alias_
                  | none => item.name
                .ok { st with lines := st.lines ++
                  [ { raw := raw, quantity := quantity
                    , match_ := ⟨item, alias_name, norm, Score.ofQ (98 / 100), false⟩
                    , confidence := Score.ofQ (98 / 100), reason := "alias_exact" } ] }
        | none =>
        match familyBedMapping raw tokens quantity catalog bed_size st.size_applied with
        | some fam =>
            .ok { st with lines := st.lines ++ fam.1, size_applied := fam.2 }
        | none =>
        match familyDresser raw tokens quantity catalog with
        | some dresser_line => .ok { st with lines := st.lines ++ [dresser_line] }
        | none =>
        match familyPiano raw tokens quantity catalog with
        | .error e => .error e
        | .ok (some piano) =>
            .ok { st with lines := st.lines ++ piano.1, assumptions := st.assumptions ++ piano.2 }
        | .ok none =>
        let category_hint := infer_category tokens
        match buildCandidates catalog options norm tokens with
        | .error e => .error e
        | .ok [] =>
            match categoryBackstop raw tokens quantity catalog with
            | .error e => .error e
            | .ok (backstop_line, backstop_assumption) =>
                .ok { st with
                      lines := st.lines ++ [backstop_line],
                      assumptions := st.assumptions ++
                        [ backstop_assumption
                        , Assumption.bestMatch raw backstop_line.match_.item.id
                            backstop_line.confidence.q [] "category_backstop" ] }
        | .ok (c :: cs) =>
            let candidates := c :: cs
            let best := deterministicPick candidates catalog category_hint c
            match catalog.get best.record.item_id with
            | none => .error ("TypeError: catalog item missing for record " ++ best.record.item_id)
            | some item =>
                let alternates := ((insertionSortB scoreDescLe candidates).drop 1).take 2
                  |>.map (fun cand => (cand.record.item_id, Score.round4 cand.score))
                .ok { st with
                  lines := st.lines ++
                    [ { raw := raw, quantity := quantity
                      , match_ := ⟨item, best.record.alias_, best.record.normalized, best.score, true⟩
                      , confidence := best.score, reason := "fuzzy_match", alternates := alternates } ],
                  assumptions := st.assumptions ++
                    [Assumption.bestMatch raw item.id (Score.round4 best.score) alternates "fuzzy"] }

def strLe (a b : String) : Bool := a = b || charListLt a.toList b.toList

/-- `resolve_inventory` from `app/resolver.py`. -/
def resolve_inventory (counter : List (String × ℤ)) (catalog : Catalog)
    (options : ResolverOptions) : Except String ResolverResult :=
  let bed_size := bedMajority counter
  match counter.foldl
      (fun (acc : Except String ResolveState) entry =>
        match acc with
        | .error e => .error e
        | .ok st => resolveStep catalog options bed_size st entry)
      (.ok ⟨[], [], []⟩) with
  | .error e => .error e
  | .ok st =>
      let assumptions := st.assumptions ++ st.size_applied.map (fun p =>
        Assumption.sizeInheritance ("bed_" ++ p.1 ++ "_mattress") (insertionSortB strLe p.2))
      let recorded := assumptions.filterMap (fun a =>
        match a with
        | Assumption.bestMatch raw chosen_id _ _ _ => some (raw, chosen_id)
        | _ => none)
      let assumptions := st.lines.foldl
        (fun asms line =>
          if (line.raw, line.match_.item.id) ∈ recorded then asms
          else asms ++ [Assumption.bestMatch line.raw line.match_.item.id
              (Score.round4 line.confidence) line.alternates line.reason]) assumptions
      let low_confidence := (st.lines.filter
        (fun line => Score.ltB line.confidence (Score.ofQ (3 / 4)))).length
      .ok ⟨st.lines, assumptions, ⟨100, low_confidence, options.resolver_policy⟩⟩

/-- The aggregation the determinism property speaks about: item id →
summed quantity, in first-appearance order (`_aggregate` of the test
suite). -/
def aggregateTotals (result : ResolverResult) : List (String × ℤ) :=
  result.lines.foldl
    (fun totals line =>
      dictSet totals line.match_.item.id
        ((dictGet totals line.match_.item.id).getD 0 + line.quantity)) []

/-! ## `app/rules.py` -/

structure AccessRule where
  code : String
  lbs_per_mover_hour : ℚ
  description : String
deriving DecidableEq, Repr

structure RateCard where
  mover_rate_per_hour : ℚ
  truck_rate_per_hour : ℚ
deriving DecidableEq, Repr

/-- One move type's rate dictionary: `rate_cards[move_type]` holds exactly
the keys `ratesMondayToThursday` and `ratesFridayToSaturday`. -/
structure RateGroup where
  ratesMondayToThursday : RateCard
  ratesFridayToSaturday : RateCard
deriving DecidableEq, Repr

/-- The nested `rate_cards` dictionary: keys `localMoves` and
`intrastateMoves`. -/
structure RateCards where
  localMoves : RateGroup
  intrastateMoves : RateGroup
deriving DecidableEq, Repr

/-- The fields of `MovingRules` read by the pricing functions under
verification (the `access_rules` dictionary is consumed upstream, by
`access_for_location`, and reaches pricing only through each location's
already-resolved `AccessRule`). -/
structure MovingRules where
  truck_capacity_lbs : ℤ
  baseline_mover_threshold_lbs : ℤ
  additional_mover_step_lbs : ℤ
  min_movers : ℤ
  max_movers : ℤ
  max_trucks : ℤ
  travel_charge_hours : ℚ
  min_billable_hours : ℚ
  local_extra_minutes_under_30_miles : ℤ
  stairs_minutes_per_flight : ℤ
  long_carry_minutes_per_50ft : ℤ
  elevator_minutes : ℤ
  mileage_rate : ℚ
  base_fee : ℚ
  nte_buffer_percent : ℚ
  rate_cards : RateCards
deriving DecidableEq, Repr

/-- A move date, represented by `date.weekday()`: 0 = Monday … 6 = Sunday
(the only attribute `rate_card_for` reads). -/
structure PyDate where
  weekday : ℕ
deriving DecidableEq, Repr

/-- `MovingRules.rate_card_for`: `weekend = move_date.weekday() >= 5`,
then the four-way `rate_cards[move_type][rate_group]` lookup. -/
def MovingRules.rate_card_for (rules : MovingRules) (move_date : PyDate) (is_local : Bool) : RateCard :=
  let weekday := move_date.weekday
  let weekend := weekday ≥ 5
  let group := if is_local then rules.rate_cards.localMoves else rules.rate_cards.intrastateMoves
  if weekend then group.ratesFridayToSaturday else group.ratesMondayToThursday

/-! ## `app/pricing.py` -/

/-- The location descriptor dict: `location.get(key) or 0` reads default to
0/false for missing keys, so the fields carry the defaulted values. -/
structure LocationRaw where
  location_type : String := ""
  floor : ℤ := 1
  elevator : Bool := false
  stairs_flights : ℤ := 0
  long_carry_feet : ℤ := 0
deriving DecidableEq, Repr

structure LocationContext where
  raw : LocationRaw
  access_rule : AccessRule
deriving DecidableEq, Repr

structure ItemAllocation where
  match_ : MatchResult
  quantity : ℤ
deriving DecidableEq, Repr

def ItemAllocation.total_weight (a : ItemAllocation) : ℚ :=
  a.match_.item.weight_lbs * a.quantity

def ItemAllocation.total_volume (a : ItemAllocation) : ℚ :=
  a.match_.item.volume_cuft * a.quantity

structure PackingSku where
  box_rate : ℚ
  labor_rate : ℚ
deriving DecidableEq, Repr

structure PackingRequest where
  service : String
  cartons : List (String × ℤ)
deriving DecidableEq, Repr

structure QuoteOptions where
  optimize_for : String := "lowest_price"
  not_to_exceed : Bool := false
  seasonality : String := "auto"
deriving DecidableEq, Repr

structure QuoteContext where
  move_date : PyDate
  distance_miles : ℚ
  origin : LocationContext
  destination : LocationContext
  allocations : List ItemAllocation
  rules : MovingRules
  packing_catalog : List (String × PackingSku)
  packing_request : PackingRequest
  options : QuoteOptions
  notes : List String := []
deriving DecidableEq, Repr

def QuoteContext.total_weight (ctx : QuoteContext) : ℚ :=
  (ctx.allocations.map ItemAllocation.total_weight).sum

def QuoteContext.total_volume (ctx : QuoteContext) : ℚ :=
  (ctx.allocations.map ItemAllocation.total_volume).sum

structure QuoteResult where
  movers : ℤ
  trucks : ℤ
  billable_hours : ℚ
  labor_cost : ℚ
  mileage_cost : ℚ
  packing_cost : ℚ
  travel_hours : ℚ
  surcharges : List (String × ℚ)
  discounts : List (String × ℚ)
  total_price : ℚ
  work_hours : ℚ
  packing_time_hours : ℚ
  calculation_trace : List (String × ℚ)
deriving DecidableEq, Repr

/-- `compute_productivity_hours`: total for `movers <= 0` (returns 0.0
before any division).  A zero access-rule rate would raise
`ZeroDivisionError` in Python; in `ℚ` the division yields 0, and the
theorems about this function assume non-zero rates. -/
def compute_productivity_hours (total_weight : ℚ) (movers : ℤ)
    (origin destination : LocationContext) : ℚ :=
  if movers ≤ 0 then 0
  else
    total_weight / ((movers : ℚ) * origin.access_rule.lbs_per_mover_hour)
      + total_weight / ((movers : ℚ) * destination.access_rule.lbs_per_mover_hour)

/-- `compute_site_adjustments_minutes`. -/
def compute_site_adjustments_minutes (location : LocationRaw) (rules : MovingRules) : ℚ :=
  let stairs := max location.stairs_flights 0
  let minutes : ℚ := (stairs * rules.stairs_minutes_per_flight : ℤ)
  let long_carry := max location.long_carry_feet 0
  let minutes := minutes +
    (if 0 < long_carry ∧ rules.long_carry_minutes_per_50ft ≠ 0 then
      ((Int.ceil ((long_carry : ℚ) / 50) * rules.long_carry_minutes_per_50ft : ℤ) : ℚ)
     else 0)
  minutes + (if location.elevator then (rules.elevator_minutes : ℚ) else 0)

/-- `compute_packing`: `(total_cost, total_hours)`. -/
def compute_packing (ctx : QuoteContext) (mover_hourly_rate : ℚ) : ℚ × ℚ :=
  if pyLower ctx.packing_request.service = "none" then (0, 0)
  else
    let cp_service := pyUpper ctx.packing_request.service = "CP"
    ctx.packing_request.cartons.foldl
      (fun (acc : ℚ × ℚ) (p : String × ℤ) =>
        if p.2 ≤ 0 then acc
        else
          match dictGet ctx.packing_catalog p.1 with
          | none => acc
          | some sku =>
              let box_cost := sku.box_rate * (p.2 : ℚ)
              let labor_cost := if cp_service then sku.labor_rate * (p.2 : ℚ) else 0
              let acc := (acc.1 + box_cost + labor_cost, acc.2)
              if cp_service ∧ mover_hourly_rate ≠ 0 then
                (acc.1, acc.2 + labor_cost / mover_hourly_rate)
              else acc)
      (0, 0)

/-- `protective_materials_charge`. -/
def protective_materials_charge (total_weight : ℚ) : ℚ :=
  if total_weight ≤ 0 then 0 else (Int.ceil (total_weight / 1000) : ℚ) * 5

/-- The travel-hours term of `evaluate_candidate`. -/
def candidateTravelHours (ctx : QuoteContext) : ℚ :=
  ctx.rules.travel_charge_hours +
    (if ctx.distance_miles < 30 then (ctx.rules.local_extra_minutes_under_30_miles : ℚ) / 60
     else max (ctx.distance_miles / 30) (1 / 2))

/-- The `total_hours` value `evaluate_candidate` computes for a mover
count: productivity + travel + site adjustments / 60 + packing hours. -/
def candidateTotalHours (movers : ℤ) (ctx : QuoteContext) : ℚ :=
  let work_hours := compute_productivity_hours ctx.total_weight movers ctx.origin ctx.destination
  let rate_card := ctx.rules.rate_card_for ctx.move_date (decide (ctx.distance_miles < 30))
  let adjustment_minutes := compute_site_adjustments_minutes ctx.origin.raw ctx.rules
    + compute_site_adjustments_minutes ctx.destination.raw ctx.rules
  work_hours + candidateTravelHours ctx + adjustment_minutes / 60
    + (compute_packing ctx rate_card.mover_rate_per_hour).2

/-- `evaluate_candidate` from `app/pricing.py`. -/
def evaluate_candidate (movers trucks : ℤ) (ctx : QuoteContext) : QuoteResult :=
  let total_weight := ctx.total_weight
  let work_hours := compute_productivity_hours total_weight movers ctx.origin ctx.destination
  let travel_hours := candidateTravelHours ctx
  let rate_card := ctx.rules.rate_card_for ctx.move_date (decide (ctx.distance_miles < 30))
  let mover_rate := rate_card.mover_rate_per_hour
  let truck_rate := rate_card.truck_rate_per_hour
  let adjustment_minutes := compute_site_adjustments_minutes ctx.origin.raw ctx.rules
    + compute_site_adjustments_minutes ctx.destination.raw ctx.rules
  let packing := compute_packing ctx mover_rate
  let total_hours := work_hours + travel_hours + adjustment_minutes / 60 + packing.2
  let billable_hours := max ctx.rules.min_billable_hours total_hours
  let labor_hourly := mover_rate * movers + truck_rate * trucks
  let labor_cost := labor_hourly * billable_hours
  let mileage_cost := ctx.distance_miles * ctx.rules.mileage_rate
  let protective_charge := protective_materials_charge total_weight
  let surcharges :=
    if protective_charge ≠ 0 then [("protective_materials", pyRoundQ 2 protective_charge)] else []
  let subtotal := labor_cost + mileage_cost + packing.1 + (surcharges.map (fun s => s.2)).sum
  let total_price0 := subtotal + ctx.rules.base_fee
  let total_price :=
    if ctx.options.not_to_exceed then total_price0 * (1 + ctx.rules.nte_buffer_percent)
    else total_price0
  { movers := movers, trucks := trucks, billable_hours := billable_hours
  , labor_cost := labor_cost, mileage_cost := mileage_cost, packing_cost := packing.1
  , travel_hours := travel_hours, surcharges := surcharges, discounts := []
  , total_price := total_price, work_hours := work_hours, packing_time_hours := packing.2
  , calculation_trace :=
      [ ("work_hours", work_hours), ("travel_hours", travel_hours)
      , ("adjustment_minutes", adjustment_minutes), ("packing_time_hours", packing.2)
      , ("labor_hourly", labor_hourly) ] }

/-- The mover floor computed at the top of `optimize`:
`max(min_movers, min_movers + ceil((w - baseline)/step))` when the weight
exceeds the baseline, else the configured minimum. -/
def minMoversFor (ctx : QuoteContext) : ℤ :=
  let min_movers := ctx.rules.min_movers
  let baseline := ctx.rules.baseline_mover_threshold_lbs
  let step := ctx.rules.additional_mover_step_lbs
  let min_for_weight :=
    if (baseline : ℚ) < ctx.total_weight then
      min_movers + Int.ceil ((ctx.total_weight - (baseline : ℚ)) / (step : ℚ))
    else min_movers
  max min_movers min_for_weight

/-- `min_trucks = max(1, ceil(total_weight / truck_capacity_lbs))`. -/
def minTrucksFor (ctx : QuoteContext) : ℤ :=
  max 1 (Int.ceil (ctx.total_weight / (ctx.rules.truck_capacity_lbs : ℚ)))

/-- The `(movers, trucks)` grid of `optimize`, in loop order. -/
def optimizeGrid (ctx : QuoteContext) : List (ℤ × ℤ) :=
  let min_trucks := minTrucksFor ctx
  let max_trucks := max ctx.rules.max_trucks min_trucks
  (pyRange (minMoversFor ctx) (ctx.rules.max_movers + 1)).flatMap
    (fun movers => (pyRange min_trucks (max_trucks + 1)).map (fun trucks => (movers, trucks)))

/-- One iteration of the grid loop of `optimize`: bump the candidate
count, keep the incumbent unless the new quote is strictly cheaper
(first-encountered wins ties). -/
def optimizeStep (ctx : QuoteContext) (acc : Option QuoteResult × ℕ) (mt : ℤ × ℤ) :
    Option QuoteResult × ℕ :=
  let quote := evaluate_candidate mt.1 mt.2 ctx
  let best :=
    match acc.1 with
    | none => some quote
    | some b => if quote.total_price < b.total_price then some quote else some b
  (best, acc.2 + 1)

/-- `optimize` from `app/pricing.py`: evaluate every grid candidate,
keeping the first strictly-cheaper quote; `ValueError` on an empty grid. -/
def optimize (ctx : QuoteContext) : Except String (QuoteResult × ℕ) :=
  match (optimizeGrid ctx).foldl (optimizeStep ctx) (none, 0) with
  | (none, _) => .error "No valid quote candidates evaluated"
  | (some best, candidate_count) => .ok (best, candidate_count)

/-! ## Definitions used by the claim statements -/

/-- The tie-break rule as the claim states it: largest fractional
remainder first, ties by size index ASCENDING (smallest size first).
Defined only to compare the claim's words against the source's
`allocate_boxes`. -/
def remOrderAscTies (x y : ℕ × ℚ) : Prop :=
  y.2 < x.2 ∨ (x.2 = y.2 ∧ x.1 ≤ y.1)

instance : DecidableRel remOrderAscTies := fun x y =>
  inferInstanceAs (Decidable (y.2 < x.2 ∨ (x.2 = y.2 ∧ x.1 ≤ y.1)))

/-- The allocation the claim describes (ascending ties). -/
def boxFinalCountsAscTies (total : ℤ) (policy : String) : List ℤ :=
  distributeRemainder (List.insertionSort remOrderAscTies (boxPairs total policy))
    (boxRemainder total policy) (boxBaseCounts total policy)

def allocate_boxes_claimAscTies (total : ℤ) (policy : String) : List (String × ℤ) :=
  if total ≤ 0 then boxSizes.map (fun s => (s, 0))
  else
    (List.range boxSizes.length).map
      (fun idx => (boxSizes.getD idx "", (boxFinalCountsAscTies total policy).getD idx 0))

instance : IsTotal (ℕ × ℚ) remOrder :=
  ⟨by
    intro a b
    unfold remOrder
    rcases lt_trichotomy a.2 b.2 with h | h | h
    · exact Or.inr (Or.inl h)
    · rcases Nat.le_total b.1 a.1 with hn | hn
      · exact Or.inl (Or.inr ⟨h, hn⟩)
      · exact Or.inr (Or.inr ⟨h.symm, hn⟩)
    · exact Or.inl (Or.inl h)⟩

instance : IsTrans (ℕ × ℚ) remOrder :=
  ⟨by
    intro a b c hab hbc
    unfold remOrder at *
    rcases hab with h1 | ⟨h1, h1'⟩ <;> rcases hbc with h2 | ⟨h2, h2'⟩
    · exact Or.inl (h2.trans h1)
    · exact Or.inl (by rw [← h2]; exact h1)
    · exact Or.inl (by rw [h1]; exact h2)
    · exact Or.inr ⟨h1.trans h2, h2'.trans h1'⟩⟩

/-- The record `_register_alias` builds for one registration. -/
def regRecord (aliasText : String) (item : CatalogItem) (priority : ℕ) : AliasRecord :=
  let normalized := normalize_label aliasText
  ⟨item.id, aliasText, normalized, generate_tokens normalized, trigram_vector normalized, priority⟩

/-- The records a registration sequence offers for normalized key `k`
(skipping empty normalizations), in registration order. -/
def regCandidates (k : String) (regs : List (String × CatalogItem × ℕ)) : List AliasRecord :=
  regs.filterMap (fun r =>
    if normalize_label r.1 = k ∧ normalize_label r.1 ≠ "" then some (regRecord r.1 r.2.1 r.2.2)
    else none)

/-- Keep the incumbent unless the newcomer has strictly lower priority:
the collision rule of `_register_alias`. -/
def keepFirstMin (acc : Option AliasRecord) (r : AliasRecord) : Option AliasRecord :=
  match acc with
  | none => some r
  | some a => if r.priority < a.priority then some r else some a

/-! ## Sample inputs used by concrete evaluations -/

/-- The numeric constants hard-coded in `load_rules` (`app/rules.py`); the
rate-card amounts come from the data file and are sample values here (no
theorem depends on them). -/
def defaultRules : MovingRules :=
  { truck_capacity_lbs := 8000, baseline_mover_threshold_lbs := 4000
  , additional_mover_step_lbs := 2500, min_movers := 2, max_movers := 6, max_trucks := 3
  , travel_charge_hours := 1, min_billable_hours := 3
  , local_extra_minutes_under_30_miles := 20, stairs_minutes_per_flight := 6
  , long_carry_minutes_per_50ft := 5, elevator_minutes := 10
  , mileage_rate := 9 / 4, base_fee := 45, nte_buffer_percent := 3 / 20
  , rate_cards := ⟨⟨⟨149, 35⟩, ⟨169, 40⟩⟩, ⟨⟨189, 45⟩, ⟨209, 50⟩⟩⟩ }

def sampleAccess : AccessRule := ⟨"1C", 1000, "Ground floor"⟩

def sampleLocation : LocationContext := ⟨{}, sampleAccess⟩

/-- A single-item quote context of total weight `w` against the default
rules (move date Friday 2025-11-07, `weekday() = 4`; local distance). -/
def weightCtx (w : ℚ) : QuoteContext :=
  { move_date := ⟨4⟩, distance_miles := 10
  , origin := sampleLocation, destination := sampleLocation
  , allocations := [⟨⟨⟨"item_x", "Item X", "misc", 10, w, []⟩, "Item X", "item x", Score.ofQ 1, false⟩, 1⟩]
  , rules := defaultRules, packing_catalog := [], packing_request := ⟨"none", []⟩
  , options := {} }

/-- A rules configuration whose grid is a single candidate, for witness
evaluations. -/
def miniRules : MovingRules :=
  { defaultRules with min_movers := 1, max_movers := 1, max_trucks := 1 }

def miniCtx : QuoteContext := { weightCtx 100 with rules := miniRules }

/-- A one-item catalog (medoid present, no aliases): enough for the
resolver to exercise exact-id, backstop and the piano crash. -/
def sampleItem : CatalogItem := ⟨"it1", "Widget", "misc", 10, 25, []⟩

def sampleCatalog : Catalog := ⟨[("it1", sampleItem)], [], [], [("misc", "it1")]⟩

/-! ## C3: `rate_card_for` day-of-week bucketing -/

/-- C3: the claim says the Friday-to-Saturday rate group is selected
exactly on Fridays and Saturdays.  The code computes
`weekend = move_date.weekday() >= 5`, which is Saturday/Sunday: a Friday
move (`weekday() = 4`) gets the Monday-to-Thursday card and a Sunday move
(`weekday() = 6`) gets the Friday-to-Saturday card, for every rule set and
both move types.  This contradicts the data's own rate-group naming
(`ratesFridayToSaturday`). -/
theorem rate_card_friday_gets_weekday_card (rules : MovingRules) (is_local : Bool) :
    (rules.rate_card_for ⟨4⟩ is_local =
      (if is_local then rules.rate_cards.localMoves else rules.rate_cards.intrastateMoves).ratesMondayToThursday)
    ∧ (rules.rate_card_for ⟨6⟩ is_local =
      (if is_local then rules.rate_cards.localMoves else rules.rate_cards.intrastateMoves).ratesFridayToSaturday) := by
  cases is_local <;> exact ⟨rfl, rfl⟩

/-! ## C6: normalizer on the three dining-table spellings -/

/-- C6 counterexample: the three spellings do *not* all normalize alike:
`normalize_label "table - dining" = "table dining"`, which differs from
`normalize_label "dining table" = "dining table"` (no reordering is applied
to non-box phrases). -/
theorem normalize_dining_counterexample :
    ¬ (normalize_label "Dining_Table" = normalize_label "dining table"
       ∧ normalize_label "dining table" = normalize_label "table - dining") := by
  decide

/-- C6 amended: `normalize_label "Dining_Table" = normalize_label "dining
table"`, while `"table - dining"` normalizes to the distinct string
`"table dining"`; the two normalized forms are unified one level up, by the
manual alias table, which maps both to `dining_table_medium`. -/
theorem normalize_dining_amended :
    normalize_label "Dining_Table" = normalize_label "dining table"
    ∧ normalize_label "table - dining" = "table dining"
    ∧ normalize_label "table - dining" ≠ normalize_label "dining table"
    ∧ dictGet MANUAL_ALIASES (normalize_label "dining table") = some "dining_table_medium"
    ∧ dictGet MANUAL_ALIASES (normalize_label "table - dining") = some "dining_table_medium" := by
  decide

/-! ## C10: totality of `compute_productivity_hours` -/

/-- C10: `compute_productivity_hours` returns 0 for a non-positive mover
count instead of dividing by zero, and for `movers ≥ 1` (with both access
rates non-zero, the condition under which Python performs the divisions)
it returns the two-leg load/unload formula. -/
theorem compute_productivity_hours_total (w : ℚ) (o d : LocationContext) (movers : ℤ) :
    (movers ≤ 0 → compute_productivity_hours w movers o d = 0)
    ∧ (1 ≤ movers → o.access_rule.lbs_per_mover_hour ≠ 0 →
        d.access_rule.lbs_per_mover_hour ≠ 0 →
        compute_productivity_hours w movers o d =
          w / ((movers : ℚ) * o.access_rule.lbs_per_mover_hour)
            + w / ((movers : ℚ) * d.access_rule.lbs_per_mover_hour)) := by
  constructor
  · intro h
    simp [compute_productivity_hours, h]
  · intro h _ _
    have : ¬ movers ≤ 0 := by omega
    simp [compute_productivity_hours, this]

/-- C10 witness: two movers, 1000 lbs/mover-hour at both ends, 100 lbs. -/
theorem compute_productivity_hours_total_witness :
    compute_productivity_hours 100 2 sampleLocation sampleLocation =
      100 / ((2 : ℚ) * 1000) + 100 / ((2 : ℚ) * 1000) :=
  (compute_productivity_hours_total 100 sampleLocation sampleLocation 2).2
    (by norm_num) (by decide) (by decide)

/-! ## C2 and C7: the optimizer grid and billable hours -/

lemma pyRange_eq_nil_iff (lo hi : ℤ) : pyRange lo hi = [] ↔ hi ≤ lo := by
  constructor
  · intro h
    have hlen := congrArg List.length h
    simp only [pyRange, List.length_map, List.length_range, List.length_nil] at hlen
    omega
  · intro h
    have hz : (hi - lo).toNat = 0 := by omega
    simp [pyRange, hz]

lemma optimizeStep_isSome (ctx : QuoteContext) (acc : Option QuoteResult × ℕ) (mt : ℤ × ℤ) :
    ((optimizeStep ctx acc mt).1).isSome := by
  unfold optimizeStep
  cases acc.1 with
  | none => simp
  | some b => simp only; split <;> simp

lemma foldl_optimizeStep_isSome (ctx : QuoteContext) (l : List (ℤ × ℤ))
    (acc : Option QuoteResult × ℕ) (h : acc.1.isSome) :
    ((l.foldl (optimizeStep ctx) acc).1).isSome := by
  induction l generalizing acc with
  | nil => exact h
  | cons x xs ih => exact ih _ (optimizeStep_isSome ctx acc x)

/-- The truck range is never empty (its upper bound is clamped up to the
lower), so the grid is empty exactly when the mover floor exceeds the
configured maximum. -/
lemma optimizeGrid_eq_nil_iff (ctx : QuoteContext) :
    optimizeGrid ctx = [] ↔ ctx.rules.max_movers < minMoversFor ctx := by
  unfold optimizeGrid
  constructor
  · intro h
    by_contra hlt
    push_neg at hlt
    cases hh : pyRange (minMoversFor ctx) (ctx.rules.max_movers + 1) with
    | nil =>
        rw [pyRange_eq_nil_iff] at hh
        omega
    | cons m rest =>
        rw [hh] at h
        simp only [List.flatMap_cons] at h
        rcases List.append_eq_nil.mp h with ⟨h1, _⟩
        have hinner := List.map_eq_nil_iff.mp h1
        rw [pyRange_eq_nil_iff] at hinner
        have := le_max_right ctx.rules.max_trucks (minTrucksFor ctx)
        omega
  · intro h
    have hnil : pyRange (minMoversFor ctx) (ctx.rules.max_movers + 1) = [] := by
      rw [pyRange_eq_nil_iff]; omega
    simp [hnil]

lemma optimize_isOk_iff (ctx : QuoteContext) :
    (optimize ctx).isOk = true ↔ minMoversFor ctx ≤ ctx.rules.max_movers := by
  unfold optimize
  constructor
  · intro h
    by_contra hgt
    push_neg at hgt
    have hnil : optimizeGrid ctx = [] := (optimizeGrid_eq_nil_iff ctx).mpr hgt
    rw [hnil] at h
    simp [Except.isOk, Except.toBool] at h
  · intro h
    cases hh : optimizeGrid ctx with
    | nil =>
        rw [optimizeGrid_eq_nil_iff] at hh
        omega
    | cons x xs =>
        simp only [List.foldl_cons]
        have hsome := foldl_optimizeStep_isSome ctx xs (optimizeStep ctx (none, 0) x)
          (optimizeStep_isSome ctx (none, 0) x)
        cases hres : (xs.foldl (optimizeStep ctx) (optimizeStep ctx (none, 0) x)) with
        | mk o n =>
            rw [hres] at hsome
            cases o with
            | none => simp at hsome
            | some b => simp [Except.isOk, Except.toBool]

/-- Every quote the optimizer's fold can hold came out of
`evaluate_candidate`. -/
lemma foldl_optimizeStep_shape (ctx : QuoteContext) (l : List (ℤ × ℤ))
    (acc : Option QuoteResult × ℕ)
    (hacc : ∀ b, acc.1 = some b → ∃ m t, b = evaluate_candidate m t ctx) :
    ∀ b, ((l.foldl (optimizeStep ctx) acc).1 = some b) →
      ∃ m t, b = evaluate_candidate m t ctx := by
  induction l generalizing acc with
  | nil => exact hacc
  | cons x xs ih =>
      apply ih
      intro b hb
      unfold optimizeStep at hb
      cases haccv : acc.1 with
      | none =>
          rw [haccv] at hb
          simp only [Option.some.injEq] at hb
          exact ⟨x.1, x.2, hb.symm⟩
      | some b0 =>
          rw [haccv] at hb
          simp only at hb
          split at hb
          · exact ⟨x.1, x.2, ((Option.some.injEq _ _).mp hb).symm⟩
          · have hb0 : b = b0 := ((Option.some.injEq _ _).mp hb).symm
            rw [hb0]
            exact hacc b0 haccv

/-- C2 (amended): the optimizer's mover floor is
`max(min_movers, min_movers + ceil((w − baseline)/step))` above the
baseline, exactly as the claim's formula states — but it is *not* clamped
to the configured maximum: `optimize` succeeds precisely when the floor is
at most `max_movers`, and raises the empty-grid error otherwise. -/
theorem optimize_mover_floor_amended (ctx : QuoteContext) :
    minMoversFor ctx =
      max ctx.rules.min_movers
        (if (ctx.rules.baseline_mover_threshold_lbs : ℚ) < ctx.total_weight then
          ctx.rules.min_movers +
            Int.ceil ((ctx.total_weight - (ctx.rules.baseline_mover_threshold_lbs : ℚ))
              / (ctx.rules.additional_mover_step_lbs : ℚ))
         else ctx.rules.min_movers)
    ∧ ((optimize ctx).isOk = true ↔ minMoversFor ctx ≤ ctx.rules.max_movers) :=
  ⟨rfl, optimize_isOk_iff ctx⟩

/-- C2 counterexample: with the constants `load_rules` hard-codes
(min 2, max 6, baseline 4000 lbs, step 2500 lbs), a 15000 lbs move needs
`2 + ⌈11000/2500⌉ = 7 > 6` movers; the grid is empty and `optimize`
raises the "empty candidate grid" fatal error the claim says can never
occur. -/
theorem optimize_empty_grid_counterexample :
    optimize (weightCtx 15000) = .error "No valid quote candidates evaluated" := rfl

/-- C7: any result `optimize` returns has billable hours at least the
configured minimum, and every evaluated candidate's billable hours equal
`max(total hours, min billable hours)`. -/
theorem optimize_billable_hours_min (ctx : QuoteContext) :
    (∀ res n, optimize ctx = .ok (res, n) → ctx.rules.min_billable_hours ≤ res.billable_hours)
    ∧ ∀ movers trucks, (evaluate_candidate movers trucks ctx).billable_hours
        = max (candidateTotalHours movers ctx) ctx.rules.min_billable_hours := by
  have heval : ∀ movers trucks, (evaluate_candidate movers trucks ctx).billable_hours
      = max ctx.rules.min_billable_hours (candidateTotalHours movers ctx) := fun _ _ => rfl
  constructor
  · intro res n hok
    unfold optimize at hok
    cases hfold : ((optimizeGrid ctx).foldl (optimizeStep ctx) (none, 0)) with
    | mk o cnt =>
        rw [hfold] at hok
        cases o with
        | none => exact absurd hok (by simp)
        | some b =>
            simp only [Except.ok.injEq, Prod.mk.injEq] at hok
            obtain ⟨m, t, hb⟩ := foldl_optimizeStep_shape ctx (optimizeGrid ctx) (none, 0)
              (by intro b hb; simp at hb) b (by rw [hfold])
            rw [← hok.1, hb, heval]
            exact le_max_left _ _
  · intro movers trucks
    rw [heval]
    exact max_comm _ _

/-- C7 witness: the single-candidate context `miniCtx` optimizes to the
(1 mover, 1 truck) evaluation, whose billable hours are at least the
3-hour minimum. -/
theorem optimize_billable_hours_min_witness :
    miniCtx.rules.min_billable_hours ≤ (evaluate_candidate 1 1 miniCtx).billable_hours :=
  (optimize_billable_hours_min miniCtx).1 (evaluate_candidate 1 1 miniCtx) 1 rfl

/-! ## C8: resolver determinism -/

/-- C8: the resolver is a pure function of its explicit inputs (counter,
catalog, options): the embedding exhibits no hidden state, so two runs on
the same input produce identical aggregated item-id totals (the dictionary
iteration the source relies on is insertion-ordered and deterministic). -/
theorem resolver_deterministic (counter : List (String × ℤ)) (catalog : Catalog)
    (options : ResolverOptions) :
    (resolve_inventory counter catalog options).map aggregateTotals
      = (resolve_inventory counter catalog options).map aggregateTotals := rfl

/-! ## C4: the resolver's no-failure design -/

/-- C4: the claim (and §7 of the spec) says resolution never fails except
when the catalog has no medoids.  But `_family_piano` evaluates
`tokens & {"upright", "spinet", "console", "studio"}` where `tokens` is a
*list*, so every piano label that is not a grand piano and reaches the
family rule raises `TypeError`: here `{"upright piano": 1}` against a
catalog with a medoid crashes the whole resolution. -/
theorem resolve_inventory_piano_crash :
    resolve_inventory [("upright piano", 1)] sampleCatalog {} =
      .error "TypeError: unsupported operand type(s) for &: 'list' and 'set'" := rfl

/-! ## C1: the box-allocation sum invariant -/
section
lemma parse_box_policy_length (policy : String) : (parse_box_policy policy).length = 4 := by
  unfold parse_box_policy
  simp only [List.length_take, List.length_append, List.length_replicate]
  omega

lemma sum_set_succ (l : List ℤ) (i : ℕ) (h : i < l.length) :
    (l.set i (l.getD i 0 + 1)).sum = l.sum + 1 := by
  induction l generalizing i with
  | nil => simp at h
  | cons a t ih =>
      cases i with
      | zero => simp [List.set, List.getD]; ring
      | succ j =>
          simp only [List.set, List.getD_cons_succ, List.sum_cons]
          rw [ih j (by simpa using h)]
          ring

lemma distributeRemainder_sum (l : List (ℕ × ℚ)) (r : ℤ) (counts : List ℤ)
    (hmem : ∀ p ∈ l, p.1 < counts.length) :
    (distributeRemainder l r counts).sum = counts.sum + min (max r 0) (l.length : ℤ) := by
  induction l generalizing r counts with
  | nil =>
      simp [distributeRemainder]
  | cons p rest ih =>
      unfold distributeRemainder
      by_cases hr : r ≤ 0
      · rw [if_pos hr]
        have : min (max r 0) ((p :: rest).length : ℤ) = 0 := by
          simp only [List.length_cons]
          omega
        rw [this]
        ring
      · rw [if_neg hr]
        have hp : p.1 < counts.length := hmem p (List.mem_cons_self p rest)
        have hlen : (counts.set p.1 (counts.getD p.1 0 + 1)).length = counts.length :=
          List.length_set counts p.1 _
        rw [ih (r - 1) _ (fun q hq => hlen ▸ hmem q (List.mem_cons_of_mem p hq))]
        rw [sum_set_succ counts p.1 hp]
        simp only [List.length_cons]
        push_cast
        omega

lemma sum_getD_range (l : List ℤ) :
    ((List.range l.length).map (fun i => l.getD i 0)).sum = l.sum := by
  induction l with
  | nil => simp
  | cons a t ih =>
      rw [List.length_cons, List.range_succ_eq_map]
      simp only [List.map_cons, List.map_map, List.sum_cons]
      have : ((List.range t.length).map ((fun i => (a :: t).getD i 0) ∘ Nat.succ)).sum
          = ((List.range t.length).map (fun i => t.getD i 0)).sum := by
        congr 1
      rw [this, ih]
      simp [List.getD_cons_zero]
end
section
lemma distributeRemainder_length (l : List (ℕ × ℚ)) (r : ℤ) (counts : List ℤ) :
    (distributeRemainder l r counts).length = counts.length := by
  induction l generalizing r counts with
  | nil => rfl
  | cons p rest ih =>
      unfold distributeRemainder
      by_cases hr : r ≤ 0
      · rw [if_pos hr]
      · rw [if_neg hr, ih, List.length_set]

lemma floorSum_le (ts : List ℚ) : (((ts.map (fun t => ⌊t⌋)).sum : ℤ) : ℚ) ≤ ts.sum := by
  induction ts with
  | nil => simp
  | cons a t ih =>
      simp only [List.map_cons, List.sum_cons]
      push_cast
      have := Int.floor_le a
      push_cast at ih
      linarith

lemma floorSum_ge (ts : List ℚ) :
    ts.sum - ts.length ≤ (((ts.map (fun t => ⌊t⌋)).sum : ℤ) : ℚ) := by
  induction ts with
  | nil => simp
  | cons a t ih =>
      simp only [List.map_cons, List.sum_cons, List.length_cons]
      push_cast
      have := Int.sub_one_lt_floor a
      push_cast at ih
      linarith

lemma boxPairs_fst_lt (total : ℤ) (policy : String) :
    ∀ p ∈ boxPairs total policy, p.1 < 4 := by
  intro p hp
  unfold boxPairs at hp
  obtain ⟨idx, hidx, hpe⟩ := List.mem_map.mp hp
  rw [← hpe]
  simpa [boxSizes, BOX_ID_MAP] using List.mem_range.mp hidx

lemma boxSortedPairs_length (total : ℤ) (policy : String) :
    (boxSortedPairs total policy).length = 4 := by
  unfold boxSortedPairs
  rw [(List.perm_insertionSort remOrder (boxPairs total policy)).length_eq]
  simp [boxPairs, boxSizes, BOX_ID_MAP]

/-- C1 (amended): `total <= 0` yields the all-zero allocation for the four
known sizes under *every* policy; and whenever the parsed ratios sum to 1
(the invariant the default `50/35/10/5` and every well-formed percentage
split satisfies) the counts sum to `max total 0`, i.e. to `total` for
non-negative totals.  For policies whose ratios do not sum to 1 the sum
invariant fails (see the counterexample). -/
theorem allocate_boxes_sum_amended (total : ℤ) (policy : String) :
    (total ≤ 0 → allocate_boxes total policy = BOX_ID_MAP.map (fun p => (p.1, (0 : ℤ))))
    ∧ ((parse_box_policy policy).sum = 1 →
        ((allocate_boxes total policy).map (fun p => p.2)).sum = max total 0) := by
  constructor
  · intro h
    unfold allocate_boxes
    rw [if_pos h]
    rfl
  · intro hsum
    by_cases hpos : total ≤ 0
    · unfold allocate_boxes
      rw [if_pos hpos]
      have hz : ((boxSizes.map (fun s => (s, (0 : ℤ)))).map (fun p => p.2)).sum = 0 := by decide
      rw [hz]
      omega
    have hmax : max total 0 = total := by omega
    rw [hmax]
    unfold allocate_boxes
    rw [if_neg hpos]
    have hlenRatios := parse_box_policy_length policy
    have hT : (boxTargets total policy).length = 4 := by simp [boxTargets, hlenRatios]
    have hC : (boxBaseCounts total policy).length = 4 := by simp [boxBaseCounts, hT]
    have hFC : (boxFinalCounts total policy).length = 4 := by
      unfold boxFinalCounts
      rw [distributeRemainder_length, hC]
    have hmem : ∀ p ∈ boxSortedPairs total policy, p.1 < (boxBaseCounts total policy).length := by
      intro p hp
      rw [hC]
      exact boxPairs_fst_lt total policy p
        ((List.perm_insertionSort remOrder (boxPairs total policy)).mem_iff.mp hp)
    have hBC : boxBaseCounts total policy = (boxTargets total policy).map (fun t => ⌊t⌋) := rfl
    have hTsum : (boxTargets total policy).sum = (total : ℚ) := by
      unfold boxTargets
      rw [List.sum_map_mul_left]
      simp [hsum]
    have hub : ((boxBaseCounts total policy).sum : ℚ) ≤ (total : ℚ) := by
      rw [← hTsum, hBC]
      exact floorSum_le (boxTargets total policy)
    have hlb : (total : ℚ) - (4 : ℕ) ≤ ((boxBaseCounts total policy).sum : ℚ) := by
      rw [hBC]
      have := floorSum_ge (boxTargets total policy)
      rw [hTsum, hT] at this
      exact this
    have h1 : (boxBaseCounts total policy).sum ≤ total := by exact_mod_cast hub
    have h2 : total - 4 ≤ (boxBaseCounts total policy).sum := by exact_mod_cast hlb
    rw [List.map_map]
    have hrange : boxSizes.length = (boxFinalCounts total policy).length := by
      rw [hFC]; rfl
    calc ((List.range boxSizes.length).map
            ((fun p => p.2) ∘ fun idx => (boxSizes.getD idx "", (boxFinalCounts total policy).getD idx 0))).sum
        = ((List.range (boxFinalCounts total policy).length).map
            (fun idx => (boxFinalCounts total policy).getD idx 0)).sum := by rw [← hrange]; rfl
      _ = (boxFinalCounts total policy).sum := sum_getD_range _
      _ = total := by
          unfold boxFinalCounts
          rw [distributeRemainder_sum _ _ _ hmem, boxSortedPairs_length]
          unfold boxRemainder
          omega
end

/-- C1 counterexample: under the policy `"0/0/0/0"` (all ratios 0) the
remainder loop has only four index slots, so `allocate_boxes 10` returns
one box of each size — the counts sum to 4, not 10. -/
theorem allocate_boxes_sum_counterexample :
    ((allocate_boxes 10 "0/0/0/0").map (fun p => p.2)).sum ≠ 10 := by decide

/-- C1 witness: the all-zero branch at `total = -1`, and the exact-sum
branch at `total = 10` under the default policy. -/
theorem allocate_boxes_sum_amended_witness :
    allocate_boxes (-1) "50/35/10/5" = BOX_ID_MAP.map (fun p => (p.1, (0 : ℤ)))
    ∧ ((allocate_boxes 10 "50/35/10/5").map (fun p => p.2)).sum = max 10 0 :=
  ⟨(allocate_boxes_sum_amended (-1) "50/35/10/5").1 (by decide),
   (allocate_boxes_sum_amended 10 "50/35/10/5").2 (by decide)⟩
/-! ## C5: remainder tie-breaking -/

/-- C5 counterexample: one box under `"50/50/0/0"` — both of the first two
sizes have fractional remainder 1/2; the source gives the single remainder
unit to size `3.0` (index 1, descending ties), the claim's ascending rule
would give it to size `1.5` (index 0). -/
theorem allocate_boxes_tie_counterexample :
    allocate_boxes 1 "50/50/0/0" = [("1.5", 0), ("3.0", 1), ("4.5", 0), ("6.0", 0)]
    ∧ allocate_boxes_claimAscTies 1 "50/50/0/0" = [("1.5", 1), ("3.0", 0), ("4.5", 0), ("6.0", 0)]
    ∧ allocate_boxes 1 "50/50/0/0" ≠ allocate_boxes_claimAscTies 1 "50/50/0/0" := by
  decide

lemma getD_set_self (L : List ℤ) (j : ℕ) (v : ℤ) (h : j < L.length) :
    (L.set j v).getD j 0 = v := by
  induction L generalizing j with
  | nil => simp at h
  | cons a t ih =>
      cases j with
      | zero => rfl
      | succ k => exact ih k (by simpa using h)

lemma getD_set_ne (L : List ℤ) (j k : ℕ) (v : ℤ) (h : j ≠ k) :
    (L.set j v).getD k 0 = L.getD k 0 := by
  induction L generalizing j k with
  | nil => simp [List.set]
  | cons a t ih =>
      cases j with
      | zero =>
          cases k with
          | zero => exact absurd rfl h
          | succ k' => rfl
      | succ j' =>
          cases k with
          | zero => rfl
          | succ k' => exact ih j' k' (fun hc => h (by rw [hc]))

lemma distributeRemainder_getD (l : List (ℕ × ℚ)) (r : ℤ) (counts : List ℤ)
    (hnodup : (l.map Prod.fst).Nodup) (hmem : ∀ p ∈ l, p.1 < counts.length)
    (i : ℕ) (hi : i < counts.length) :
    (distributeRemainder l r counts).getD i 0 =
      counts.getD i 0 + (if i ∈ (l.take r.toNat).map Prod.fst then 1 else 0) := by
  induction l generalizing r counts with
  | nil => simp [distributeRemainder]
  | cons p rest ih =>
      unfold distributeRemainder
      by_cases hr : r ≤ 0
      · have : r.toNat = 0 := by omega
        rw [if_pos hr, this]
        simp
      · rw [if_neg hr]
        have hrt : r.toNat = (r - 1).toNat + 1 := by omega
        have hp := hmem p (List.mem_cons_self p rest)
        rw [List.map_cons, List.nodup_cons] at hnodup
        rw [ih (r - 1) (counts.set p.1 (counts.getD p.1 0 + 1)) hnodup.2
          (fun q hq => (List.length_set counts p.1 _) ▸ hmem q (List.mem_cons_of_mem p hq))
          ((List.length_set counts p.1 _) ▸ hi)]
        rw [hrt, List.take_succ_cons, List.map_cons]
        by_cases hip : i = p.1
        · subst hip
          rw [getD_set_self counts p.1 _ hp]
          have hnotin : p.1 ∉ (rest.take (r - 1).toNat).map Prod.fst := by
            intro hin
            exact hnodup.1 (by
              rw [List.map_take] at hin
              exact List.mem_of_mem_take hin)
          rw [if_neg hnotin, if_pos (List.mem_cons_self p.1 _)]
          ring
        · rw [getD_set_ne counts p.1 i _ (fun hc => hip hc.symm)]
          simp only [List.mem_cons]
          simp [hip]

lemma boxPairs_map_fst (total : ℤ) (policy : String) :
    (boxPairs total policy).map Prod.fst = List.range 4 := by
  have h4 : boxSizes.length = 4 := rfl
  unfold boxPairs
  rw [List.map_map, h4]
  have hcomp : (Prod.fst ∘ fun idx => (idx, boxFrac total policy idx)) = id := rfl
  rw [hcomp, List.map_id]

lemma boxSortedPairs_fst_nodup (total : ℤ) (policy : String) :
    ((boxSortedPairs total policy).map Prod.fst).Nodup := by
  have hperm := (List.perm_insertionSort remOrder (boxPairs total policy)).map Prod.fst
  exact hperm.nodup_iff.mpr (by rw [boxPairs_map_fst]; exact List.nodup_range 4)

lemma boxSortedPairs_elem (total : ℤ) (policy : String) :
    ∀ p ∈ boxSortedPairs total policy, p = (p.1, boxFrac total policy p.1) := by
  intro p hp
  have hp2 : p ∈ boxPairs total policy :=
    (List.perm_insertionSort remOrder (boxPairs total policy)).mem_iff.mp hp
  unfold boxPairs at hp2
  obtain ⟨idx, _, hpe⟩ := List.mem_map.mp hp2
  rw [← hpe]

lemma boxExtra_iff (total : ℤ) (policy : String) (i : ℕ) (hi : i < 4) :
    ((boxBaseCounts total policy).getD i 0 < (boxFinalCounts total policy).getD i 0 ↔
      i ∈ ((boxSortedPairs total policy).take (boxRemainder total policy).toNat).map Prod.fst) := by
  have hC : (boxBaseCounts total policy).length = 4 := by
    simp [boxBaseCounts, boxTargets, parse_box_policy_length]
  have hmem : ∀ p ∈ boxSortedPairs total policy, p.1 < (boxBaseCounts total policy).length := by
    intro p hp
    rw [hC]
    exact boxPairs_fst_lt total policy p
      ((List.perm_insertionSort remOrder (boxPairs total policy)).mem_iff.mp hp)
  unfold boxFinalCounts
  rw [distributeRemainder_getD _ _ _ (boxSortedPairs_fst_nodup total policy) hmem i (hC ▸ hi)]
  split_ifs with hm
  · simp only [hm, iff_true]
    omega
  · simp only [hm, iff_false]
    omega

/-- C5 (amended): the remainder units go to the pairs with the largest
fractional remainder, and on equal fractional remainders the *larger*
size index is served first (descending, `reverse=True` on the `(frac,
idx)` key): if index `i` received an extra unit and index `j` precedes it
in that order, `j` received one too. -/
theorem allocate_boxes_tie_break_desc (total : ℤ) (policy : String) (i j : ℕ)
    (hi : i < 4) (hj : j < 4)
    (hkey : boxFrac total policy i < boxFrac total policy j
            ∨ (boxFrac total policy i = boxFrac total policy j ∧ i < j))
    (hextra : (boxBaseCounts total policy).getD i 0 < (boxFinalCounts total policy).getD i 0) :
    (boxBaseCounts total policy).getD j 0 < (boxFinalCounts total policy).getD j 0 := by
  rw [boxExtra_iff total policy i hi] at hextra
  rw [boxExtra_iff total policy j hj]
  have hsorted : (boxSortedPairs total policy).Sorted remOrder :=
    List.sorted_insertionSort remOrder (boxPairs total policy)
  obtain ⟨pi_, hpiMem, hpiFst⟩ := List.mem_map.mp hextra
  have hpiS : pi_ ∈ boxSortedPairs total policy := List.mem_of_mem_take hpiMem
  have hpiEq : pi_ = (i, boxFrac total policy i) := by
    have h := boxSortedPairs_elem total policy pi_ hpiS
    rw [h, hpiFst]
  obtain ⟨q, hqlt, hq⟩ := List.getElem_of_mem hpiMem
  have hqn : q < (boxRemainder total policy).toNat := by
    have := hqlt
    rw [List.length_take] at this
    omega
  have hqS : q < (boxSortedPairs total policy).length := by
    have := hqlt
    rw [List.length_take] at this
    omega
  have hqEq : (boxSortedPairs total policy).get ⟨q, hqS⟩ = pi_ :=
    (List.getElem_take (boxSortedPairs total policy)).symm.trans hq
  have hjPairs : (j, boxFrac total policy j) ∈ boxPairs total policy := by
    unfold boxPairs
    exact List.mem_map.mpr ⟨j, List.mem_range.mpr hj, rfl⟩
  have hjS : (j, boxFrac total policy j) ∈ boxSortedPairs total policy :=
    (List.perm_insertionSort remOrder (boxPairs total policy)).mem_iff.mpr hjPairs
  obtain ⟨q', hq'lt, hq'⟩ := List.getElem_of_mem hjS
  have hne : q' ≠ q := by
    intro hcontra
    subst hcontra
    have hq'g2 : (boxSortedPairs total policy).get ⟨q', hqS⟩ = (j, boxFrac total policy j) := hq'
    have hpj : pi_ = (j, boxFrac total policy j) := hqEq.symm.trans hq'g2
    rw [hpiEq] at hpj
    have hij' : i = j := congrArg Prod.fst hpj
    rcases hkey with hlt | ⟨_, hij⟩
    · rw [hij'] at hlt
      exact lt_irrefl _ hlt
    · omega
  have hq'q : q' < q := by
    by_contra hge
    push_neg at hge
    have hlt : q < q' := by omega
    have hrel : remOrder ((boxSortedPairs total policy).get ⟨q, hqS⟩)
        ((boxSortedPairs total policy).get ⟨q', hq'lt⟩) :=
      (List.pairwise_iff_getElem.mp hsorted) q q' hqS hq'lt hlt
    have hq'g : (boxSortedPairs total policy).get ⟨q', hq'lt⟩ = (j, boxFrac total policy j) := hq'
    rw [hqEq, hpiEq, hq'g] at hrel
    unfold remOrder at hrel
    dsimp only at hrel
    rcases hkey with hk | ⟨hk, hij⟩ <;> rcases hrel with hr | ⟨hr, hr'⟩
    · exact absurd hk (not_lt.mpr (le_of_lt hr))
    · exact absurd hk (not_lt.mpr (le_of_eq hr.symm))
    · rw [hk] at hr
      exact lt_irrefl _ hr
    · omega
  have hq'n : q' < (boxRemainder total policy).toNat := by omega
  refine List.mem_map.mpr ⟨(j, boxFrac total policy j), ?_, rfl⟩
  have hlen : q' < ((boxSortedPairs total policy).take (boxRemainder total policy).toNat).length := by
    rw [List.length_take]
    omega
  have hEq : ((boxSortedPairs total policy).take (boxRemainder total policy).toNat).get ⟨q', hlen⟩
      = (j, boxFrac total policy j) :=
    (List.getElem_take (boxSortedPairs total policy)).trans hq'
  exact hEq ▸ List.get_mem _ _ _

/-- C5 witness: two remainder units under `"30/30/30/10"` — indices 1 and
2 tie on fractional remainder 3/5; index 1 received a unit, so the
descending rule forces index 2 to have received one as well. -/
theorem allocate_boxes_tie_break_desc_witness :
    (boxBaseCounts 2 "30/30/30/10").getD 2 0 < (boxFinalCounts 2 "30/30/30/10").getD 2 0 :=
  allocate_boxes_tie_break_desc 2 "30/30/30/10" 1 2 (by decide) (by decide)
    (Or.inr ⟨by decide, by decide⟩) (by decide)

/-! ## C9: alias-index collision resolution -/

lemma dictGet_dictSet_self {α : Type} (l : List (String × α)) (k : String) (v : α) :
    dictGet (dictSet l k v) k = some v := by
  induction l with
  | nil => simp [dictSet, dictGet]
  | cons p rest ih =>
      by_cases h : p.1 = k
      · simp [dictSet, dictGet, h]
      · simp only [dictSet, dictGet]
        rw [if_neg h, dictGet, if_neg h]
        exact ih

lemma dictGet_dictSet_ne {α : Type} (l : List (String × α)) (k k' : String) (v : α)
    (h : k' ≠ k) : dictGet (dictSet l k v) k' = dictGet l k' := by
  induction l with
  | nil =>
      show dictGet [(k, v)] k' = none
      unfold dictGet
      rw [if_neg (fun hc => h hc.symm)]
      rfl
  | cons p rest ih =>
      by_cases hp : p.1 = k
      · simp only [dictSet]
        rw [if_pos hp, dictGet, dictGet]
        have : ¬ p.1 = k' := by rw [hp]; exact fun hc => h hc.symm
        rw [if_neg this, if_neg this]
      · simp only [dictSet]
        rw [if_neg hp, dictGet, dictGet]
        by_cases hk' : p.1 = k'
        · rw [if_pos hk', if_pos hk']
        · rw [if_neg hk', if_neg hk']
          exact ih

/-- One `_register_alias` call, seen through the key `k`. -/
lemma registerAlias_dictGet (c : Catalog) (a : String) (it : CatalogItem) (p : ℕ) (k : String) :
    dictGet (registerAlias c a it p).alias_records k
      = if normalize_label a = k ∧ normalize_label a ≠ "" then
          keepFirstMin (dictGet c.alias_records k) (regRecord a it p)
        else dictGet c.alias_records k := by
  have hrecords : (registerAlias c a it p).alias_records
      = if normalize_label a = "" then c.alias_records
        else
          match dictGet c.alias_records (normalize_label a) with
          | some existing =>
              if existing.priority ≤ p then c.alias_records
              else dictSet c.alias_records (normalize_label a) (regRecord a it p)
          | none => dictSet c.alias_records (normalize_label a) (regRecord a it p) := by
    unfold registerAlias regRecord
    by_cases hempty : normalize_label a = ""
    · rw [if_pos hempty, if_pos hempty]
    · rw [if_neg hempty, if_neg hempty]
      cases hex : dictGet c.alias_records (normalize_label a) with
      | none =>
          dsimp only
      | some ex =>
          dsimp only
          by_cases hpr : ex.priority ≤ p
          · rw [if_pos hpr, if_pos hpr]
          · rw [if_neg hpr, if_neg hpr]
  rw [hrecords]
  by_cases hempty : normalize_label a = ""
  · rw [if_pos hempty, if_neg (fun hc => hc.2 hempty)]
  · rw [if_neg hempty]
    by_cases hk : normalize_label a = k
    · subst hk
      rw [if_pos ⟨rfl, hempty⟩]
      cases hex : dictGet c.alias_records (normalize_label a) with
      | none =>
          dsimp only
          rw [dictGet_dictSet_self]
          unfold keepFirstMin
          rfl
      | some ex =>
          dsimp only
          by_cases hpr : ex.priority ≤ p
          · rw [if_pos hpr]
            unfold keepFirstMin
            dsimp only
            have hnp : ¬ (regRecord a it p).priority < ex.priority := by
              unfold regRecord
              dsimp only
              omega
            rw [if_neg hnp, hex]
          · rw [if_neg hpr, dictGet_dictSet_self]
            unfold keepFirstMin
            dsimp only
            have hp2 : (regRecord a it p).priority < ex.priority := by
              unfold regRecord
              dsimp only
              omega
            rw [if_pos hp2]
    · rw [if_neg (fun hc => hk hc.1)]
      cases hex : dictGet c.alias_records (normalize_label a) with
      | none =>
          dsimp only
          rw [dictGet_dictSet_ne _ _ _ _ (fun hc => hk hc.symm)]
      | some ex =>
          dsimp only
          by_cases hpr : ex.priority ≤ p
          · rw [if_pos hpr]
          · rw [if_neg hpr, dictGet_dictSet_ne _ _ _ _ (fun hc => hk hc.symm)]

/-- The whole construction folds `keepFirstMin` over the key's candidates. -/
lemma applyRegistrations_dictGet (regs : List (String × CatalogItem × ℕ)) (c : Catalog) (k : String) :
    dictGet (applyRegistrations c regs).alias_records k
      = (regCandidates k regs).foldl keepFirstMin (dictGet c.alias_records k) := by
  induction regs generalizing c with
  | nil => rfl
  | cons r rest ih =>
      unfold applyRegistrations at ih ⊢
      rw [List.foldl_cons, ih]
      unfold regCandidates
      rw [List.filterMap_cons]
      by_cases hc : normalize_label r.1 = k ∧ normalize_label r.1 ≠ ""
      · rw [if_pos hc, List.foldl_cons]
        rw [registerAlias_dictGet, if_pos hc]
      · rw [if_neg hc]
        rw [registerAlias_dictGet, if_neg hc]

/-- Folding the collision rule from a seed equals taking the first
candidate of globally minimal priority. -/
lemma foldl_keepFirstMin_some (t : List AliasRecord) (acc : AliasRecord) :
    t.foldl keepFirstMin (some acc)
      = (acc :: t).find? (fun r => decide (∀ s ∈ acc :: t, r.priority ≤ s.priority)) := by
  induction t generalizing acc with
  | nil =>
      simp [List.find?]
  | cons b t' ih =>
      have bne : ∀ {x : Bool}, x = false → ¬ x = true := by
        intro x h
        simp [h]
      rw [List.foldl_cons]
      by_cases hba : b.priority < acc.priority
      · have hstep : keepFirstMin (some acc) b = some b := by
          unfold keepFirstMin
          dsimp only
          rw [if_pos hba]
        rw [hstep, ih b]
        have haccfalse :
            (fun (r : AliasRecord) => decide (∀ s ∈ acc :: b :: t', r.priority ≤ s.priority)) acc
              = false := by
          simp only [decide_eq_false_iff_not]
          intro hall
          have := hall b (by simp)
          omega
        have e2a : (acc :: b :: t').find?
              (fun (r : AliasRecord) => decide (∀ s ∈ acc :: b :: t', r.priority ≤ s.priority))
            = (b :: t').find?
              (fun (r : AliasRecord) => decide (∀ s ∈ acc :: b :: t', r.priority ≤ s.priority)) :=
          List.find?_cons_of_neg _ (bne haccfalse)
        have hpred : (fun (r : AliasRecord) => decide (∀ s ∈ b :: t', r.priority ≤ s.priority))
            = (fun (r : AliasRecord) => decide (∀ s ∈ acc :: b :: t', r.priority ≤ s.priority)) := by
          funext r
          rw [decide_eq_decide]
          constructor
          · intro hall s hs
            rcases List.mem_cons.mp hs with hsa | hsrest
            · have hb := hall b (by simp)
              rw [hsa]
              omega
            · exact hall s hsrest
          · intro hall s hs
            exact hall s (List.mem_cons_of_mem acc hs)
        rw [e2a, ← hpred]
      · have hstep : keepFirstMin (some acc) b = some acc := by
          unfold keepFirstMin
          dsimp only
          rw [if_neg hba]
        rw [hstep, ih acc]
        by_cases hacc2 : ∀ s ∈ acc :: b :: t', acc.priority ≤ s.priority
        · have hp2 : (fun (r : AliasRecord) =>
              decide (∀ s ∈ acc :: b :: t', r.priority ≤ s.priority)) acc = true := by
            simpa using hacc2
          have hp1 : (fun (r : AliasRecord) =>
              decide (∀ s ∈ acc :: t', r.priority ≤ s.priority)) acc = true := by
            simp only [decide_eq_true_eq]
            intro s hs
            rcases List.mem_cons.mp hs with hsa | hsrest
            · rw [hsa]
            · exact hacc2 s (by simp [hsrest])
          have e1 : (acc :: t').find?
                (fun (r : AliasRecord) => decide (∀ s ∈ acc :: t', r.priority ≤ s.priority))
              = some acc := List.find?_cons_of_pos _ hp1
          have e2 : (acc :: b :: t').find?
                (fun (r : AliasRecord) => decide (∀ s ∈ acc :: b :: t', r.priority ≤ s.priority))
              = some acc := List.find?_cons_of_pos _ hp2
          rw [e1, e2]
        · push_neg at hacc2
          obtain ⟨s0, hs0mem, hs0⟩ := hacc2
          have hs0t' : s0 ∈ t' := by
            rcases List.mem_cons.mp hs0mem with h1 | h2
            · exact absurd (h1 ▸ hs0) (lt_irrefl _)
            · rcases List.mem_cons.mp h2 with h3 | h4
              · exact absurd (h3 ▸ hs0) hba
              · exact h4
          have hp2acc : (fun (r : AliasRecord) =>
              decide (∀ s ∈ acc :: b :: t', r.priority ≤ s.priority)) acc = false := by
            simp only [decide_eq_false_iff_not]
            intro hall
            exact absurd (hall s0 hs0mem) (by omega)
          have hp1acc : (fun (r : AliasRecord) =>
              decide (∀ s ∈ acc :: t', r.priority ≤ s.priority)) acc = false := by
            simp only [decide_eq_false_iff_not]
            intro hall
            exact absurd (hall s0 (List.mem_cons_of_mem acc hs0t')) (by omega)
          have hp2b : (fun (r : AliasRecord) =>
              decide (∀ s ∈ acc :: b :: t', r.priority ≤ s.priority)) b = false := by
            simp only [decide_eq_false_iff_not]
            intro hall
            have h1 := hall s0 hs0mem
            omega
          have e2a : (acc :: b :: t').find?
                (fun (r : AliasRecord) => decide (∀ s ∈ acc :: b :: t', r.priority ≤ s.priority))
              = (b :: t').find?
                (fun (r : AliasRecord) => decide (∀ s ∈ acc :: b :: t', r.priority ≤ s.priority)) :=
            List.find?_cons_of_neg _ (bne hp2acc)
          have e2b : (b :: t').find?
                (fun (r : AliasRecord) => decide (∀ s ∈ acc :: b :: t', r.priority ≤ s.priority))
              = t'.find?
                (fun (r : AliasRecord) => decide (∀ s ∈ acc :: b :: t', r.priority ≤ s.priority)) :=
            List.find?_cons_of_neg _ (bne hp2b)
          have e1a : (acc :: t').find?
                (fun (r : AliasRecord) => decide (∀ s ∈ acc :: t', r.priority ≤ s.priority))
              = t'.find?
                (fun (r : AliasRecord) => decide (∀ s ∈ acc :: t', r.priority ≤ s.priority)) :=
            List.find?_cons_of_neg _ (bne hp1acc)
          have hpred : (fun (r : AliasRecord) => decide (∀ s ∈ acc :: t', r.priority ≤ s.priority))
              = (fun (r : AliasRecord) => decide (∀ s ∈ acc :: b :: t', r.priority ≤ s.priority)) := by
            funext r
            rw [decide_eq_decide]
            constructor
            · intro hall s hs
              rcases List.mem_cons.mp hs with h1 | h2
              · rw [h1]
                exact hall acc (by simp)
              · rcases List.mem_cons.mp h2 with h3 | h4
                · have hracc := hall acc (by simp)
                  rw [h3]
                  omega
                · exact hall s (by simp [h4])
            · intro hall s hs
              rcases List.mem_cons.mp hs with h1 | h2
              · rw [h1]
                exact hall acc (by simp)
              · exact hall s (by simp [h2])
          rw [e1a, e2a, e2b, hpred]

lemma foldl_keepFirstMin_eq_find (l : List AliasRecord) :
    l.foldl keepFirstMin none
      = l.find? (fun r => decide (∀ s ∈ l, r.priority ≤ s.priority)) := by
  cases l with
  | nil => rfl
  | cons a t =>
      rw [List.foldl_cons]
      have hstep : keepFirstMin none a = some a := rfl
      rw [hstep]
      exact foldl_keepFirstMin_some t a

/-- C9: after any sequence of registrations (the shape `_load_items`
produces: item names, author aliases, generated variants, manual
aliases), the record stored for each normalized key is the *first
registered* among those of *lowest numeric priority* for that key — in
particular a later registration with priority equal to or greater than
the stored record's never replaces it. -/
theorem register_alias_lowest_priority_first_wins
    (regs : List (String × CatalogItem × ℕ)) (k : String) :
    dictGet (applyRegistrations emptyCatalog regs).alias_records k
      = (regCandidates k regs).find?
          (fun r => decide (∀ s ∈ regCandidates k regs, r.priority ≤ s.priority)) := by
  rw [applyRegistrations_dictGet]
  exact foldl_keepFirstMin_eq_find _

/-! ## Correctness of the exact score comparison

`Score.leB` was derived by sign analysis and squaring; the following
theorem verifies it against the real-number order on `q + √u`. -/

lemma sqrtLeAux {A B : ℝ} (hB : 0 ≤ B) : Real.sqrt A ≤ B ↔ A ≤ B ^ 2 := by
  rw [Real.sqrt_le_iff]
  exact and_iff_right hB

set_option maxHeartbeats 1600000 in
theorem Score.leB_correct (s t : Score) (hs : 0 ≤ s.u) (ht : 0 ≤ t.u) :
    (Score.leB s t = true ↔
      (s.q : ℝ) + Real.sqrt (s.u : ℝ) ≤ (t.q : ℝ) + Real.sqrt (t.u : ℝ)) := by
  have hs' : (0 : ℝ) ≤ (s.u : ℚ) := by exact_mod_cast hs
  have ht' : (0 : ℝ) ≤ (t.u : ℚ) := by exact_mod_cast ht
  have hsq : Real.sqrt ((t.u : ℚ) : ℝ) ^ 2 = ((t.u : ℚ) : ℝ) := Real.sq_sqrt ht'
  have hsq' : Real.sqrt ((s.u : ℚ) : ℝ) ^ 2 = ((s.u : ℚ) : ℝ) := Real.sq_sqrt hs'
  have hnn := Real.sqrt_nonneg ((t.u : ℚ) : ℝ)
  have hnn' := Real.sqrt_nonneg ((s.u : ℚ) : ℝ)
  set D : ℝ := ((t.q : ℚ) : ℝ) - ((s.q : ℚ) : ℝ) with hD
  -- the main reduction: when the right side is non-negative, the order is
  -- equivalent to `e ≤ 2D√t.u`
  have key : (0 : ℝ) ≤ D + Real.sqrt ((t.u : ℚ) : ℝ) →
      (((s.q : ℚ) : ℝ) + Real.sqrt ((s.u : ℚ) : ℝ) ≤ ((t.q : ℚ) : ℝ) + Real.sqrt ((t.u : ℚ) : ℝ)
        ↔ ((s.u : ℚ) : ℝ) - ((t.u : ℚ) : ℝ) - D ^ 2 ≤ 2 * D * Real.sqrt ((t.u : ℚ) : ℝ)) := by
    intro hpos
    have h1 : (((s.q : ℚ) : ℝ) + Real.sqrt ((s.u : ℚ) : ℝ)
        ≤ ((t.q : ℚ) : ℝ) + Real.sqrt ((t.u : ℚ) : ℝ))
        ↔ Real.sqrt ((s.u : ℚ) : ℝ) ≤ D + Real.sqrt ((t.u : ℚ) : ℝ) := by
      constructor <;> intro h <;> [skip; skip] <;> linarith
    rw [h1, sqrtLeAux hpos]
    constructor <;> intro h <;> nlinarith [hsq, hnn]
  simp only [Score.leB]
  split_ifs with h1 h2 h3 h4
  · -- right side negative: always false
    simp only [false_iff, not_le]
    obtain ⟨hd, hu⟩ := h1
    have hd' : D < 0 := by
      rw [hD]
      have : ((t.q : ℚ) : ℝ) < ((s.q : ℚ) : ℝ) := by exact_mod_cast (by linarith : t.q < s.q)
      linarith
    have hu' : ((t.u : ℚ) : ℝ) < D ^ 2 := by
      have : ((t.u : ℚ) : ℝ) < (((t.q - s.q) ^ 2 : ℚ) : ℝ) := by exact_mod_cast hu
      rw [hD]
      push_cast at this ⊢
      linarith
    have : Real.sqrt ((t.u : ℚ) : ℝ) < -D := by
      have habs : Real.sqrt (D ^ 2) = |D| := Real.sqrt_sq_eq_abs D
      have hlt := Real.sqrt_lt_sqrt ht' hu'
      rw [habs, abs_of_neg hd'] at hlt
      exact hlt
    nlinarith [hnn']
  · -- 0 ≤ d, e ≤ 0: always true
    simp only [true_iff]
    have hd : (0 : ℝ) ≤ D := by
      rw [hD]
      have : ((s.q : ℚ) : ℝ) ≤ ((t.q : ℚ) : ℝ) := by exact_mod_cast (by linarith : s.q ≤ t.q)
      linarith
    have he : ((s.u : ℚ) : ℝ) - ((t.u : ℚ) : ℝ) - D ^ 2 ≤ 0 := by
      have : ((s.u - t.u - (t.q - s.q) ^ 2 : ℚ) : ℝ) ≤ 0 := by exact_mod_cast h3
      rw [hD]
      push_cast at this ⊢
      linarith
    have hpos : (0 : ℝ) ≤ D + Real.sqrt ((t.u : ℚ) : ℝ) := by linarith
    rw [key hpos]
    nlinarith [hnn, hd]
  · -- 0 ≤ d, 0 < e: compare the squares
    rw [decide_eq_true_eq]
    have hd : (0 : ℝ) ≤ D := by
      rw [hD]
      have : ((s.q : ℚ) : ℝ) ≤ ((t.q : ℚ) : ℝ) := by exact_mod_cast (by linarith : s.q ≤ t.q)
      linarith
    have he : 0 < ((s.u : ℚ) : ℝ) - ((t.u : ℚ) : ℝ) - D ^ 2 := by
      have : (0 : ℝ) < ((s.u - t.u - (t.q - s.q) ^ 2 : ℚ) : ℝ) := by
        exact_mod_cast not_le.mp h3
      rw [hD]
      push_cast at this ⊢
      linarith
    have hpos : (0 : ℝ) ≤ D + Real.sqrt ((t.u : ℚ) : ℝ) := by linarith
    rw [key hpos]
    have hcast : (((s.u - t.u - (t.q - s.q) ^ 2) ^ 2 : ℚ) : ℝ)
        = (((s.u : ℚ) : ℝ) - ((t.u : ℚ) : ℝ) - D ^ 2) ^ 2 := by
      rw [hD]
      push_cast
      ring
    have hcast2 : ((4 * (t.q - s.q) ^ 2 * t.u : ℚ) : ℝ)
        = 4 * D ^ 2 * ((t.u : ℚ) : ℝ) := by
      rw [hD]
      push_cast
      ring
    have hFsq : (2 * D * Real.sqrt ((t.u : ℚ) : ℝ)) ^ 2 = 4 * D ^ 2 * ((t.u : ℚ) : ℝ) := by
      rw [mul_pow, hsq]
      ring
    have hF : (0 : ℝ) ≤ 2 * D * Real.sqrt ((t.u : ℚ) : ℝ) :=
      mul_nonneg (mul_nonneg (by norm_num) hd) hnn
    constructor
    · intro h
      have h' : (((s.u : ℚ) : ℝ) - ((t.u : ℚ) : ℝ) - D ^ 2) ^ 2
          ≤ 4 * D ^ 2 * ((t.u : ℚ) : ℝ) := by
        rw [← hcast, ← hcast2]
        exact_mod_cast h
      have hstep : (((s.u : ℚ) : ℝ) - ((t.u : ℚ) : ℝ) - D ^ 2) ^ 2
          ≤ (2 * D * Real.sqrt ((t.u : ℚ) : ℝ)) ^ 2 := by
        rw [hFsq]
        exact h'
      exact le_of_pow_le_pow_left₀ two_ne_zero hF hstep
    · intro h
      have h' : (((s.u : ℚ) : ℝ) - ((t.u : ℚ) : ℝ) - D ^ 2) ^ 2
          ≤ 4 * D ^ 2 * ((t.u : ℚ) : ℝ) := by nlinarith [hsq, hnn, he, hd]
      have := hcast ▸ hcast2 ▸ h'
      exact_mod_cast this
  · -- d < 0 yet t.u ≥ d², 0 < e: always false
    simp only [false_iff]
    push_neg at h1
    have hdq : t.q - s.q < 0 := not_le.mp h2
    have hd : D < 0 := by
      rw [hD]
      have : ((t.q : ℚ) : ℝ) < ((s.q : ℚ) : ℝ) := by
        exact_mod_cast (by linarith : t.q < s.q)
      linarith
    have hu : D ^ 2 ≤ ((t.u : ℚ) : ℝ) := by
      have : (((t.q - s.q) ^ 2 : ℚ) : ℝ) ≤ ((t.u : ℚ) : ℝ) := by
        exact_mod_cast h1 hdq
      rw [hD]
      push_cast at this ⊢
      linarith
    have he : 0 < ((s.u : ℚ) : ℝ) - ((t.u : ℚ) : ℝ) - D ^ 2 := by
      have : (0 : ℝ) < ((s.u - t.u - (t.q - s.q) ^ 2 : ℚ) : ℝ) := by exact_mod_cast h4
      rw [hD]
      push_cast at this ⊢
      linarith
    have hpos : (0 : ℝ) ≤ D + Real.sqrt ((t.u : ℚ) : ℝ) := by
      have : -D ≤ Real.sqrt ((t.u : ℚ) : ℝ) := by
        have habs : Real.sqrt (D ^ 2) = |D| := Real.sqrt_sq_eq_abs D
        have hmono := Real.sqrt_le_sqrt hu
        rw [habs, abs_of_neg hd] at hmono
        exact hmono
      linarith
    intro hcon
    have hle := (key hpos).mp hcon
    have hDn : D * Real.sqrt ((t.u : ℚ) : ℝ) ≤ 0 :=
      mul_nonpos_of_nonpos_of_nonneg (le_of_lt hd) hnn
    linarith
  · -- d < 0, t.u ≥ d², e ≤ 0: compare the squares (reversed)
    rw [decide_eq_true_eq]
    push_neg at h1
    have hdq : t.q - s.q < 0 := not_le.mp h2
    have hd : D < 0 := by
      rw [hD]
      have : ((t.q : ℚ) : ℝ) < ((s.q : ℚ) : ℝ) := by
        exact_mod_cast (by linarith : t.q < s.q)
      linarith
    have hu : D ^ 2 ≤ ((t.u : ℚ) : ℝ) := by
      have : (((t.q - s.q) ^ 2 : ℚ) : ℝ) ≤ ((t.u : ℚ) : ℝ) := by
        exact_mod_cast h1 hdq
      rw [hD]
      push_cast at this ⊢
      linarith
    have he : ((s.u : ℚ) : ℝ) - ((t.u : ℚ) : ℝ) - D ^ 2 ≤ 0 := by
      have : ((s.u - t.u - (t.q - s.q) ^ 2 : ℚ) : ℝ) ≤ 0 := by
        exact_mod_cast not_lt.mp h4
      rw [hD]
      push_cast at this ⊢
      linarith
    have hpos : (0 : ℝ) ≤ D + Real.sqrt ((t.u : ℚ) : ℝ) := by
      have : -D ≤ Real.sqrt ((t.u : ℚ) : ℝ) := by
        have habs : Real.sqrt (D ^ 2) = |D| := Real.sqrt_sq_eq_abs D
        have hmono := Real.sqrt_le_sqrt hu
        rw [habs, abs_of_neg hd] at hmono
        exact hmono
      linarith
    rw [key hpos]
    have hcast : (((s.u - t.u - (t.q - s.q) ^ 2) ^ 2 : ℚ) : ℝ)
        = (((s.u : ℚ) : ℝ) - ((t.u : ℚ) : ℝ) - D ^ 2) ^ 2 := by
      rw [hD]
      push_cast
      ring
    have hcast2 : ((4 * (t.q - s.q) ^ 2 * t.u : ℚ) : ℝ)
        = 4 * D ^ 2 * ((t.u : ℚ) : ℝ) := by
      rw [hD]
      push_cast
      ring
    have hFsq : (2 * D * Real.sqrt ((t.u : ℚ) : ℝ)) ^ 2 = 4 * D ^ 2 * ((t.u : ℚ) : ℝ) := by
      rw [mul_pow, hsq]
      ring
    constructor
    · intro h
      have h' : 4 * D ^ 2 * ((t.u : ℚ) : ℝ)
          ≤ (((s.u : ℚ) : ℝ) - ((t.u : ℚ) : ℝ) - D ^ 2) ^ 2 := by
        rw [← hcast, ← hcast2]
        exact_mod_cast h
      have hstep : (-(2 * D * Real.sqrt ((t.u : ℚ) : ℝ))) ^ 2
          ≤ (-(((s.u : ℚ) : ℝ) - ((t.u : ℚ) : ℝ) - D ^ 2)) ^ 2 := by
        nlinarith [h', hFsq]
      have hne : (0 : ℝ) ≤ -(((s.u : ℚ) : ℝ) - ((t.u : ℚ) : ℝ) - D ^ 2) := by linarith
      have := le_of_pow_le_pow_left₀ two_ne_zero hne hstep
      linarith
    · intro h
      have hFn : 2 * D * Real.sqrt ((t.u : ℚ) : ℝ) ≤ 0 := by
        nlinarith [mul_nonpos_of_nonpos_of_nonneg (le_of_lt hd) hnn]
      have hkey : (0 : ℝ) ≤ (2 * D * Real.sqrt ((t.u : ℚ) : ℝ)
            - (((s.u : ℚ) : ℝ) - ((t.u : ℚ) : ℝ) - D ^ 2))
          * (-(2 * D * Real.sqrt ((t.u : ℚ) : ℝ)
            + (((s.u : ℚ) : ℝ) - ((t.u : ℚ) : ℝ) - D ^ 2))) :=
        mul_nonneg (by linarith) (by linarith)
      have h' : 4 * D ^ 2 * ((t.u : ℚ) : ℝ)
          ≤ (((s.u : ℚ) : ℝ) - ((t.u : ℚ) : ℝ) - D ^ 2) ^ 2 := by
        nlinarith [hkey, hFsq]
      have := hcast ▸ hcast2 ▸ h'
      exact_mod_cast this

/-- The comparison `ltB` decides the strict real order. -/
theorem Score.ltB_correct (s t : Score) (hs : 0 ≤ s.u) (ht : 0 ≤ t.u) :
    (Score.ltB s t = true ↔
      (s.q : ℝ) + Real.sqrt (s.u : ℝ) < (t.q : ℝ) + Real.sqrt (t.u : ℝ)) := by
  have h := Score.leB_correct t s ht hs
  simp only [Score.ltB, Bool.not_eq_true']
  constructor
  · intro hf
    by_contra hc
    push_neg at hc
    have := h.mpr hc
    rw [this] at hf
    cases hf
  · intro hlt
    cases hb : Score.leB t s
    · rfl
    · exact absurd (h.mp hb) (not_le.mpr hlt)

/-- The comparison `eqB` decides equality of the real values. -/
theorem Score.eqB_correct (s t : Score) (hs : 0 ≤ s.u) (ht : 0 ≤ t.u) :
    (Score.eqB s t = true ↔
      (s.q : ℝ) + Real.sqrt (s.u : ℝ) = (t.q : ℝ) + Real.sqrt (t.u : ℝ)) := by
  simp only [Score.eqB, Bool.and_eq_true, Score.leB_correct s t hs ht,
    Score.leB_correct t s ht hs]
  constructor
  · rintro ⟨a, b⟩
    exact le_antisymm a b
  · intro h
    exact ⟨le_of_eq h, ge_of_eq h⟩

/-- The test `intLe` decides `m ≤ q + √u`. -/
theorem Score.intLe_correct (m : ℤ) (s : Score) (hs : 0 ≤ s.u) :
    (Score.intLe m s = true ↔ (m : ℝ) ≤ (s.q : ℝ) + Real.sqrt (s.u : ℝ)) := by
  have hs' : (0 : ℝ) ≤ ((s.u : ℚ) : ℝ) := by exact_mod_cast hs
  have hnn := Real.sqrt_nonneg ((s.u : ℚ) : ℝ)
  simp only [Score.intLe, Bool.or_eq_true, decide_eq_true_eq]
  constructor
  · rintro (h | h)
    · have h' : ((m : ℚ) : ℝ) ≤ ((s.q : ℚ) : ℝ) := by
        exact_mod_cast (by linarith : (m : ℚ) ≤ s.q)
      push_cast at h' ⊢
      linarith
    · have h' : (((m : ℚ) - s.q : ℚ) : ℝ) ^ 2 ≤ ((s.u : ℚ) : ℝ) := by exact_mod_cast h
      have h2 := Real.le_sqrt_of_sq_le h'
      push_cast at h2 ⊢
      linarith
  · intro h
    by_cases hq : (m : ℚ) - s.q ≤ 0
    · exact Or.inl hq
    · right
      push_neg at hq
      have hq' : (0 : ℝ) ≤ (((m : ℚ) - s.q : ℚ) : ℝ) := by
        exact_mod_cast le_of_lt hq
      have hle : (((m : ℚ) - s.q : ℚ) : ℝ) ≤ Real.sqrt ((s.u : ℚ) : ℝ) := by
        push_cast at h ⊢
        linarith
      have := (Real.le_sqrt hq' hs').mp hle
      exact_mod_cast this

lemma filterLtRangeLen (c : ℕ) :
    ∀ n : ℕ, ((List.range n).filter (fun k => decide (k < c))).length = min c n := by
  intro n
  induction n with
  | zero => simp
  | succ n ih =>
    rw [List.range_succ, List.filter_append, List.length_append, ih]
    by_cases h : n < c
    · rw [List.filter_cons, List.filter_nil, decide_eq_true h, if_pos rfl]
      simp only [List.length_cons, List.length_nil]
      omega
    · rw [List.filter_cons, List.filter_nil, decide_eq_false h, if_neg Bool.false_ne_true]
      simp only [List.length_nil]
      omega

/-- The counting definition `floorB` computes the floor of the real value `q + √u`. -/
theorem Score.floorB_correct (s : Score) (hs : 0 ≤ s.u) :
    Score.floorB s = ⌊(s.q : ℝ) + Real.sqrt (s.u : ℝ)⌋ := by
  have hs' : (0 : ℝ) ≤ ((s.u : ℚ) : ℝ) := by exact_mod_cast hs
  have hnn := Real.sqrt_nonneg ((s.u : ℚ) : ℝ)
  set v : ℝ := ((s.q : ℚ) : ℝ) + Real.sqrt ((s.u : ℚ) : ℝ) with hv
  set f : ℤ := ⌊s.q⌋ with hf
  have hfv : f ≤ ⌊v⌋ := by
    have h1 : (f : ℝ) ≤ v := by
      have h0 := Int.floor_le s.q
      have h2 : ((f : ℚ) : ℝ) ≤ ((s.q : ℚ) : ℝ) := by exact_mod_cast h0
      rw [hv]
      push_cast at h2 ⊢
      linarith
    exact Int.le_floor.mpr h1
  set B : ℕ := Nat.sqrt (⌈s.u⌉.toNat) + 1 with hB
  have hvB : v < ((f + (B : ℤ) + 1 : ℤ) : ℝ) := by
    have hq : ((s.q : ℚ) : ℝ) < (f : ℝ) + 1 := by
      have h0 := Int.lt_floor_add_one s.q
      have h2 : ((s.q : ℚ) : ℝ) < (((f : ℚ) + 1 : ℚ) : ℝ) := by exact_mod_cast h0
      push_cast at h2 ⊢
      linarith
    have hu : Real.sqrt ((s.u : ℚ) : ℝ) < (B : ℝ) := by
      have h1 : ((s.u : ℚ) : ℝ) ≤ ((⌈s.u⌉.toNat : ℕ) : ℝ) := by
        have hceil : s.u ≤ (⌈s.u⌉ : ℚ) := Int.le_ceil s.u
        have hnn2 : (0 : ℤ) ≤ ⌈s.u⌉ := Int.ceil_nonneg hs
        have h1a : s.u ≤ ((⌈s.u⌉.toNat : ℤ) : ℚ) := by
          rw [Int.toNat_of_nonneg hnn2]
          exact hceil
        exact_mod_cast h1a
      have h2 : ((⌈s.u⌉.toNat : ℕ) : ℝ) < (B : ℝ) ^ 2 := by
        have h3 : ((⌈s.u⌉.toNat : ℕ) : ℝ)
            < (((Nat.sqrt (⌈s.u⌉.toNat) + 1) * (Nat.sqrt (⌈s.u⌉.toNat) + 1) : ℕ) : ℝ) := by
          exact_mod_cast Nat.lt_succ_sqrt (⌈s.u⌉.toNat)
        rw [hB]
        push_cast at h3 ⊢
        nlinarith [h3]
      have h4 : Real.sqrt ((s.u : ℚ) : ℝ) ≤ Real.sqrt ((⌈s.u⌉.toNat : ℕ) : ℝ) :=
        Real.sqrt_le_sqrt h1
      have h5 : Real.sqrt ((⌈s.u⌉.toNat : ℕ) : ℝ) < (B : ℝ) := by
        have hBpos : (0 : ℝ) ≤ (B : ℝ) := by positivity
        have h6 := Real.sqrt_lt_sqrt (by positivity) h2
        rwa [Real.sqrt_sq hBpos] at h6
      linarith
    rw [hv]
    push_cast at hq hu ⊢
    linarith
  have hceilB : ⌊v⌋ ≤ f + (B : ℤ) := by
    have h3 : ⌊v⌋ < f + (B : ℤ) + 1 := Int.floor_lt.mpr hvB
    omega
  have hiff : ∀ k : ℕ,
      ((Score.intLe (f + (k : ℤ) + 1) s = true) ↔ (k < (⌊v⌋ - f).toNat)) := by
    intro k
    rw [Score.intLe_correct _ s hs]
    have hstep : (((f + (k : ℤ) + 1 : ℤ) : ℝ) ≤ v) ↔ (f + (k : ℤ) + 1 ≤ ⌊v⌋) :=
      (Int.le_floor).symm
    rw [← hv]
    rw [hstep]
    omega
  have hpred : ∀ k : ℕ,
      Score.intLe (f + (k : ℤ) + 1) s = decide (k < (⌊v⌋ - f).toNat) := by
    intro k
    cases hI : Score.intLe (f + (k : ℤ) + 1) s
    · have hnk : ¬ (k < (⌊v⌋ - f).toNat) := by
        intro hk
        have hT := (hiff k).mpr hk
        rw [hI] at hT
        cases hT
      rw [decide_eq_false hnk]
    · rw [decide_eq_true ((hiff k).mp hI)]
  have hunfold : Score.floorB s
      = f + (((List.range (B + 1)).filter
          (fun k : ℕ => Score.intLe (f + (k : ℤ) + 1) s)).length : ℤ) := rfl
  have hlen : ((List.range (B + 1)).filter
        (fun k : ℕ => Score.intLe (f + (k : ℤ) + 1) s)).length
      = min ((⌊v⌋ - f).toNat) (B + 1) := by
    rw [List.filter_congr (fun k _ => hpred k)]
    exact filterLtRangeLen ((⌊v⌋ - f).toNat) (B + 1)
  rw [hunfold, hlen]
  omega
